import Mathlib

/-!
Shallow embedding of the Podd database engine (`src/Database/Database.cxx`)
and proofs about it.

Modelling conventions:
* C++ `std::string` / `char*` text is modelled as `List Char` (`Str`).
* A database file is modelled as the list of its physical lines (the text
  between newlines); `GetLine`'s tab-to-space conversion is applied when a
  line is fetched.  File positions are indices into that list; `fgetpos` /
  `fsetpos` become returning the index at which the next read starts.
* `TDatime` values are modelled as `Int` seconds on a proleptic civil
  calendar; `TDatime` comparisons are componentwise-lexicographic, which
  agrees with the seconds encoding.  The sentinel `TDatime(950101,0)` is
  `epoch1995`.
* Loops whose termination is not structural (`LoadDBvalue`'s read loop,
  `LoadDatabase`'s prefix recursion, `LoadDBarray`'s field loop) are given
  an explicit fuel argument; the public wrappers instantiate the fuel with
  a bound sufficient for the loop (file length / prefix length / text
  length), so the wrappers compute exactly the C++ loops.
* The text-variable hook `gHaTextvars` is null by default and is injected
  from outside the modelled core (spec section 6 gives the no-op default),
  so `Substitute` is the identity here.
* Diagnostic output (`::Error`, `::Warning`, `perror`), `errtxt` contents
  and the thread-local depth/prefix bookkeeping have no effect on computed
  results and are not modelled.
-/

namespace Podd

/-- Text, modelled as a list of 8-bit characters. -/
abbrev Str := List Char

/-- C `isspace` for the characters that can occur in database text. -/
def isspaceChar (c : Char) : Bool :=
  c = ' ' || c = '\t' || c = '\n' || c = '\x0b' || c = '\x0c' || c = '\r'

/-- C `isdigit`. -/
def isdigitChar (c : Char) : Bool :=
  '0' ≤ c && c ≤ '9'

/-- Numeric value of a decimal digit character. -/
def digitVal (c : Char) : Nat := c.toNat - '0'.toNat

/-- Value of a string of decimal digits (most significant first). -/
def digitsVal (ds : Str) : Nat := ds.foldl (fun a c => 10 * a + digitVal c) 0

/-- Modelled from the spec: `Trim` (declared in `Database.h`, defined
outside `src/`) removes leading and trailing whitespace from a string. -/
def Trim (s : Str) : Str :=
  ((s.dropWhile isspaceChar).reverse.dropWhile isspaceChar).reverse

/-- `IsAssignment` (Database.cxx:427): `str` has the form of an assignment,
i.e. contains a `=` that is not part of `==`, `!=`, `<=`, `>=` and has at
least one non-whitespace character before the first `=`. -/
def IsAssignment (str : Str) : Bool :=
  match str.findIdx? (· = '=') with
  | none => false
  | some pos =>
    if (str.takeWhile isspaceChar).length = pos then false
    else
      !(str.getD (pos - 1) ' ' = '!' || str.getD (pos - 1) ' ' = '<' ||
        str.getD (pos - 1) ' ' = '>' ||
        (pos + 1 < str.length && str.getD (pos + 1) ' ' = '='))

/-- `IsDBkey` (Database.cxx:324).  Locates the first `=`; with no `=`
returns status 0.  Skips the spaces around the left-hand side and compares
it to `key` with `strncmp(ln, key, p - ln + 1)`; a mismatch returns -1.
Note that `strncmp` with the length of the left-hand side succeeds whenever
the trimmed left-hand side is a byte prefix of `key` (`key.take n` has
length `< n` when `key` is shorter than `n`, in which case the comparison
hits the NUL of `key` and fails, as in C).  On a match, the value is the
right-hand side with leading spaces stripped; status +1. -/
def IsDBkey (line key : Str) : Int × Option Str :=
  match line.findIdx? (· = '=') with
  | none => (0, none)
  | some i =>
    let left := line.take i
    let lhs := ((left.dropWhile (· = ' ')).reverse.dropWhile (· = ' ')).reverse
    if lhs = [] then (-1, none)
    else if lhs = key.take lhs.length then
      (1, some ((line.drop (i + 1)).dropWhile (· = ' ')))
    else (-1, none)

/-- `ChopPrefix` (Database.cxx:361): remove the trailing level from a
dotted prefix, e.g. `"L.vdc."` becomes `"L."`.  Returns the new string and
the remaining number of dots (0 with the string cleared if the prefix is
empty or invalid).  `rfind('.', len-2)` searches positions `0 .. len-2`. -/
def ChopPrefixStr (s : Str) : Str × Int :=
  let len := s.length
  if 2 ≤ len then
    let t := s.take (len - 1)
    match t.reverse.findIdx? (· = '.') with
    | some ridx =>
      let pos := t.length - 1 - ridx
      let s' := s.take (pos + 1)
      (s', (s'.countP (· = '.') : Int))
    | none => ([], 0)
  else ([], 0)

/-- `GetLine`'s per-line transformation (Database.cxx:397): the newline is
stripped by the file model; all tabs become spaces. -/
def tabToSpace (s : Str) : Str :=
  s.map (fun c => if c = '\t' then ' ' else c)

/-- Result of `prepare_line` (Database.cxx:450): the surviving text plus
the `comment`, `continued`, `leading_space`, `trailing_space` flags. -/
structure PrepLine where
  text : Str
  comment : Bool
  continued : Bool
  leading_space : Bool
  trailing_space : Bool
  deriving Repr, DecidableEq

/-- `prepare_line` (Database.cxx:450): search for the earliest `#` or `\`;
a `#` at position 0 discards the line as a comment; otherwise everything
from the earliest marker on is erased and the kind of marker is recorded.
Then leading/trailing whitespace presence is recorded and the line is
trimmed. -/
def prepare_line (linbuf : Str) : PrepLine :=
  if linbuf = [] then ⟨[], false, false, false, false⟩
  else
    let posH := linbuf.findIdx? (· = '#')
    if posH = some 0 then ⟨[], true, false, false, false⟩
    else
      let posB := linbuf.findIdx? (· = '\\')
      let cut : Str × Bool × Bool :=
        match posH, posB with
        | none, none => (linbuf, false, false)
        | some h, none => (linbuf.take h, true, false)
        | none, some b => (linbuf.take b, false, true)
        | some h, some b =>
          if h < b then (linbuf.take h, true, false)
          else (linbuf.take b, false, true)
      let txt := cut.1
      let comment := cut.2.1
      let continued := cut.2.2
      if txt = [] then ⟨txt, comment, continued, false, false⟩
      else
        let lead := isspaceChar (txt.headD 'x')
        let trail := isspaceChar (txt.getLastD 'x')
        if lead || trail then ⟨Trim txt, comment, continued, lead, trail⟩
        else ⟨txt, comment, continued, lead, trail⟩

/-- State returned by the body of `ReadDBline` (Database.cxx:486): whether
the read loop ended by hitting end of file, the assembled logical line, the
number of physical lines consumed (a canceled read is not consumed, which
models `fsetpos` to the position saved before the last `GetLine`), and the
final value of `maybe_continued`. -/
structure ReadOut where
  eof : Bool
  line : Str
  used : Nat
  mc : Bool
  deriving Repr, DecidableEq

/-- The `while` loop of `ReadDBline` (Database.cxx:500-553), recursing over
the physical lines still ahead of the file position.  `line` is the logical
line assembled so far and `mc` is `maybe_continued`. -/
def ReadDBlineAux : List Str → Str → Bool → ReadOut
  | [], line, mc => ⟨true, line, 0, mc⟩
  | raw :: rest, line, mc =>
    let p := prepare_line (tabToSpace raw)
    if line = [] && p.text = [] then
      let r := ReadDBlineAux rest line mc
      ⟨r.eof, r.line, r.used + 1, r.mc⟩
    else if p.text ≠ [] then
      let isasgn := IsAssignment p.text
      if mc && isasgn then
        ⟨false, line, 0, mc⟩
      else
        let mc' := if line = [] && !p.continued && isasgn then true else mc
        let unfinished := p.continued || mc'
        let piece :=
          if mc' || (p.trailing_space && p.continued) then p.text ++ [' ']
          else p.text
        let line' :=
          if p.leading_space && line ≠ [] && !isspaceChar (line.getLastD 'x')
          then line ++ [' '] else line
        let line'' := line' ++ piece
        if unfinished then
          let r := ReadDBlineAux rest line'' mc'
          ⟨r.eof, r.line, r.used + 1, r.mc⟩
        else ⟨false, line'', 1, mc'⟩
    else if p.continued || p.comment then
      let r := ReadDBlineAux rest line mc
      ⟨r.eof, r.line, r.used + 1, r.mc⟩
    else ⟨false, line, 1, mc⟩

/-- `ReadDBline` (Database.cxx:486): assemble one logical line starting at
physical line `pos` of `file`.  Returns `(eof, line, newpos)`.  The
post-processing of `maybe_continued` (Database.cxx:557-567) turns an EOF
into a deferred EOF (`fsetpos` to the position before the failed read) and
removes the tentative trailing space. -/
def ReadDBline (file : List Str) (pos : Nat) : Bool × Str × Nat :=
  let r := ReadDBlineAux (file.drop pos) [] false
  if r.mc then
    let line :=
      if r.line ≠ [] && isspaceChar (r.line.getLastD 'x')
      then r.line.dropLast else r.line
    (false, line, pos + r.used)
  else (r.eof, r.line, pos + r.used)

/-! ### Date stamps -/

/-- Days of a proleptic civil calendar date (Hinnant's `days_from_civil`,
without the epoch shift; only differences and order matter here). -/
def daysFromCivil (y m d : Nat) : Nat :=
  let y' := if m ≤ 2 then y - 1 else y
  let era := y' / 400
  let yoe := y' % 400
  let doy := (153 * (if 2 < m then m - 3 else m + 9) + 2) / 5 + d - 1
  let doe := yoe * 365 + yoe / 4 - yoe / 100 + doy
  era * 146097 + doe

/-- Calendar date-time as seconds.  `TDatime` comparisons are lexicographic
in `(y,m,d,h,mi,s)`, which agrees with this encoding. -/
def encodeDT (y m d h mi s : Nat) : Int :=
  (daysFromCivil y m d : Int) * 86400 + h * 3600 + mi * 60 + s

/-- The sentinel `TDatime(950101, 0)` = 1995-01-01 00:00:00. -/
def epoch1995 : Int := encodeDT 1995 1 1 0 0 0

/-- Parse one or two decimal digits (a `%m`/`%d`/`%H`/`%M`/`%S` field). -/
def parse2 (s : Str) : Option (Nat × Str) :=
  match s with
  | c1 :: rest =>
    if isdigitChar c1 then
      match rest with
      | c2 :: rest2 =>
        if isdigitChar c2 then some (10 * digitVal c1 + digitVal c2, rest2)
        else some (digitVal c1, rest)
      | [] => some (digitVal c1, rest)
    else none
  | [] => none

/-- Parse up to four decimal digits (the `%Y` field). -/
def parse4 (s : Str) : Option (Nat × Str) :=
  let ds := (s.takeWhile isdigitChar).take 4
  if ds = [] then none else some (digitsVal ds, s.drop ds.length)

/-- Expect a literal character. -/
def expectChar (c : Char) (s : Str) : Option Str :=
  match s with
  | c' :: rest => if c' = c then some rest else none
  | [] => none

/-- Modelled from the spec and libc: the `%z` field of `strptime` — `Z`, or
a sign followed by `hh` and optionally `mm`.  Returns the offset from UTC
in seconds. -/
def parseTzOff (s : Str) : Option (Int × Str) :=
  match s with
  | 'Z' :: rest => some (0, rest)
  | c :: rest =>
    if c = '+' || c = '-' then
      match rest with
      | d1 :: d2 :: rest2 =>
        if isdigitChar d1 && isdigitChar d2 then
          let hh := 10 * digitVal d1 + digitVal d2
          let sgn : Int := if c = '+' then 1 else -1
          match rest2 with
          | e1 :: e2 :: rest3 =>
            if isdigitChar e1 && isdigitChar e2 then
              some (sgn * (hh * 3600 + (10 * digitVal e1 + digitVal e2) * 60), rest3)
            else some (sgn * (hh * 3600), rest2)
          | _ => some (sgn * (hh * 3600), rest2)
        else none
      | _ => none
    else none
  | [] => none

/-- Modelled from the spec and libc: `strptime` on the SQL time-stamp
formats used by `IsDBdate` (Database.cxx:278,282): whitespace in the format
matches zero or more whitespace characters, numeric fields are bounded
as in glibc, and the whole fragment must be consumed.  When the time zone
field is present the offset is applied (the glibc branch at
Database.cxx:288-311 converts to local time; the model takes local time =
UTC, so the conversion subtracts the parsed offset).  Returns the encoded
date-time in seconds. -/
def parseTimestamp (withTz : Bool) (ts : Str) : Option Int := do
  let s0 := ts.dropWhile isspaceChar
  let (y, s1) ← parse4 s0
  let s2 ← expectChar '-' s1
  let (mo, s3) ← parse2 s2
  if mo < 1 || 12 < mo then none else
  let s4 ← expectChar '-' s3
  let (d, s5) ← parse2 s4
  if d < 1 || 31 < d then none else
  let s6 := s5.dropWhile isspaceChar
  let (h, s7) ← parse2 s6
  if 23 < h then none else
  let s8 ← expectChar ':' s7
  let (mi, s9) ← parse2 s8
  if 59 < mi then none else
  let s10 ← expectChar ':' s9
  let (sec, s11) ← parse2 s10
  if 60 < sec then none else
  if withTz then
    let s12 := s11.dropWhile isspaceChar
    let (off, s13) ← parseTzOff s12
    if s13.dropWhile isspaceChar = [] then
      some (encodeDT y mo d h mi sec - off)
    else none
  else
    if s11.dropWhile isspaceChar = [] then
      some (encodeDT y mo d h mi sec)
    else none

/-- `IsDBdate` (Database.cxx:263): check whether `line` carries a valid
database time stamp `[ yyyy-mm-dd hh:mi:ss ]` and return it.  The bracket
arithmetic follows the source (`lbrk >= line.size()-12` is a `size_t`
comparison, never taken for `line.size() < 12`); the text between the
brackets is given to `strptime` first with and then without the `%z`
field, and years before 1995 are rejected. -/
def IsDBdate (line : Str) : Option Int :=
  match line.findIdx? (· = '[') with
  | none => none
  | some lbrk =>
    if 12 ≤ line.length ∧ line.length ≤ lbrk + 12 then none
    else
      match (line.drop lbrk).findIdx? (· = ']') with
      | none => none
      | some rel =>
        let rbrk := lbrk + rel
        if rbrk ≤ lbrk + 11 then none
        else
          let ts := (line.drop (lbrk + 1)).take (rbrk - lbrk - 1)
          let res :=
            match parseTimestamp true ts with
            | some v => some v
            | none => parseTimestamp false ts
          match res with
          | some v => if v < epoch1995 then none else some v
          | none => none

/-! ### Value resolver -/

/-- The mutable state of the `LoadDBvalue` scan (Database.cxx:596-605):
`keydate` and `prevdate` are the current and the last honored stamp,
`value` holds the text of the last honored assignment (`none` encodes
`found == false`: the caller's string is untouched), and `ignore` is
`do_ignore`. -/
structure ScanState where
  keydate : Int
  prevdate : Int
  value : Option Str
  ignore : Bool
  deriving Repr, DecidableEq

/-- One logical line of the `LoadDBvalue` scan (Database.cxx:615-627):
if not ignoring, try the key matcher; on a match record the stamp and
overwrite the running text (the last equal-stamp match wins); otherwise try
the date recognizer and refresh `do_ignore`. -/
def scanStep (date : Int) (key : Str) (st : ScanState) (line : Str) : ScanState :=
  if st.ignore = false ∧ (IsDBkey line key).1 ≠ 0 then
    if 0 < (IsDBkey line key).1 then
      { st with prevdate := st.keydate, value := (IsDBkey line key).2 }
    else st
  else
    match IsDBdate line with
    | some d =>
      { st with keydate := d, ignore := decide (date < d) || decide (d < st.prevdate) }
    | none => st

/-- The read loop of `LoadDBvalue` (Database.cxx:608), with fuel: empty
logical lines are skipped, every other line feeds `scanStep`.  The fuel is
instantiated with `file.length + 1`, which the wrapper below uses; each
successful `ReadDBline` consumes at least one physical line, so this fuel
never runs out before EOF. -/
def LoadDBvalueAux (file : List Str) (date : Int) (key : Str) :
    Nat → Nat → ScanState → ScanState
  | 0, _, st => st
  | fuel + 1, pos, st =>
    if (ReadDBline file pos).1 then st
    else
      LoadDBvalueAux file date key fuel (ReadDBline file pos).2.2
        (if (ReadDBline file pos).2.1 = [] then st
         else scanStep date key st (ReadDBline file pos).2.1)

/-- `LoadDBvalue` (Database.cxx:583): scan the whole file and return
`(0, text)` if the key was found, `(1, none)` otherwise (the caller's
value string is untouched in that case). -/
def LoadDBvalue (file : List Str) (date : Int) (key : Str) : Int × Option Str :=
  let st := LoadDBvalueAux file date key (file.length + 1) 0
    ⟨epoch1995, epoch1995, none, false⟩
  match st.value with
  | some v => (0, some v)
  | none => (1, none)

/-- The sequence of non-empty logical lines `ReadDBline` yields from
position `pos`, with the same fuel discipline as `LoadDBvalueAux`. -/
def logicalLinesAux (file : List Str) : Nat → Nat → List Str
  | 0, _ => []
  | fuel + 1, pos =>
    if (ReadDBline file pos).1 then []
    else if (ReadDBline file pos).2.1 = [] then
      logicalLinesAux file fuel (ReadDBline file pos).2.2
    else
      (ReadDBline file pos).2.1 :: logicalLinesAux file fuel (ReadDBline file pos).2.2

/-- All logical lines of a file. -/
def logicalLines (file : List Str) : List Str :=
  logicalLinesAux file (file.length + 1) 0

/-! ### Declarative description of the resolver (spec side, for C1) -/

/-- The assignments matching `key` among a list of logical lines, each
paired with its governing stamp (the last date stamp before it, `cur` at
the start). -/
def govMatches (key : Str) : List Str → Int → List (Str × Int)
  | [], _ => []
  | l :: rest, cur =>
    if (IsDBkey l key).1 = 1 then
      ((IsDBkey l key).2.getD [], cur) :: govMatches key rest cur
    else if (IsDBkey l key).1 = 0 then
      match IsDBdate l with
      | some d => govMatches key rest d
      | none => govMatches key rest cur
    else govMatches key rest cur

/-- The greatest governing stamp that is at most `date` among the matches
(the sentinel if there is none). -/
def mBest (date : Int) (M : List (Str × Int)) : Int :=
  M.foldl (fun a p => if p.2 ≤ date then max a p.2 else a) epoch1995

/-- Spec-side resolver result: the text of the last match in file order
whose governing stamp equals the greatest stamp that is at most `date`. -/
def specResolve (date : Int) (M : List (Str × Int)) : Option Str :=
  ((M.filter (fun p => p.2 ≤ date ∧ p.2 = mBest date M)).getLast?).map (·.1)

/-- One step of the greedy honoring fold: a match is honored exactly when
its governing stamp is at most `date` and at least the best stamp honored
so far. -/
def greedyStep (date : Int) (acc : Int × Option Str) (p : Str × Int) :
    Int × Option Str :=
  if p.2 ≤ date ∧ acc.1 ≤ p.2 then (p.2, some p.1) else acc

/-- The greedy honoring fold over the matches. -/
def greedyFold (date : Int) (M : List (Str × Int)) (b : Int) (v : Option Str) :
    Int × Option Str :=
  M.foldl (greedyStep date) (b, v)

/-! ### Typed converters -/

/-- Result of the C `strtoll`/`strtoull` model: the (already clamped)
value, whether `errno` was set to `ERANGE`, whether any characters were
consumed (`p != end`), and the unconsumed suffix (the `end` pointer). -/
structure StrtoOut where
  val : Int
  erange : Bool
  consumed : Bool
  rest : Str
  deriving Repr, DecidableEq

/-- `LLONG_MIN`. -/
def i64min : Int := -(2 ^ 63)

/-- `LLONG_MAX`. -/
def i64max : Int := 2 ^ 63 - 1

/-- `ULLONG_MAX`. -/
def u64max : Int := 2 ^ 64 - 1

/-- Strip an optional single leading sign; returns (negative?, rest). -/
def splitSign (s : Str) : Bool × Str :=
  match s with
  | '-' :: t => (true, t)
  | '+' :: t => (false, t)
  | _ => (false, s)

/-- The subject sequence after whitespace and sign of the `strtol` family. -/
def signBody (s : Str) : Str := (splitSign (s.dropWhile isspaceChar)).2

/-- The digit run the `strtol` family consumes. -/
def dsOf (s : Str) : Str := (signBody s).takeWhile isdigitChar

/-- The unconsumed suffix (`end` pointer) after a successful parse. -/
def restOf (s : Str) : Str := (signBody s).dropWhile isdigitChar

/-- Whether a minus sign was consumed. -/
def negOf (s : Str) : Bool := (splitSign (s.dropWhile isspaceChar)).1

/-- The mathematical value of the consumed numeral. -/
def rawOf (s : Str) : Int :=
  if negOf s then -(digitsVal (dsOf s) : Int) else (digitsVal (dsOf s) : Int)

/-- Clamp a raw signed value to `[LLONG_MIN, LLONG_MAX]`, reporting
`ERANGE`. -/
def strtollClamp (rest : Str) (raw : Int) : StrtoOut :=
  if raw < i64min then ⟨i64min, true, true, rest⟩
  else if i64max < raw then ⟨i64max, true, true, rest⟩
  else ⟨raw, false, true, rest⟩

/-- Modelled from libc: `strtoll(p, &end, 10)` — skip leading whitespace,
an optional sign, then decimal digits; with no digits nothing is consumed
and `end == p`; on overflow the value is clamped to
`[LLONG_MIN, LLONG_MAX]` and `errno = ERANGE`. -/
def strtoll (s : Str) : StrtoOut :=
  if dsOf s = [] then ⟨0, false, false, s⟩
  else strtollClamp (restOf s) (rawOf s)

/-- Reduce a raw value into `unsigned long long` (modulo 2^64), reporting
`ERANGE` when the magnitude does not fit. -/
def strtoullWrap (rest : Str) (raw : Int) : StrtoOut :=
  if raw < -u64max ∨ u64max < raw then ⟨u64max, true, true, rest⟩
  else ⟨Int.emod raw (2 ^ 64), false, true, rest⟩

/-- Modelled from libc: `strtoull(p, &end, 10)` — like `strtoll`, but a
negative subject sequence is negated in `unsigned long long` (i.e. reduced
modulo 2^64); `ERANGE` only when the magnitude exceeds `ULLONG_MAX`. -/
def strtoull (s : Str) : StrtoOut :=
  if dsOf s = [] then ⟨0, false, false, s⟩
  else strtoullWrap (restOf s) (rawOf s)

/-- An integral target type of the conversion templates: width in bits and
signedness (`Char_t`/`Byte_t` are 8, `Short_t`/`UShort_t` 16,
`Int_t`/`UInt_t` 32, `Long64_t`/`ULong64_t` 64). -/
structure IntType where
  bits : Nat
  signed : Bool
  deriving Repr, DecidableEq

/-- `numeric_limits<T>::min()`. -/
def IntType.tmin (T : IntType) : Int :=
  if T.signed then -(2 ^ (T.bits - 1)) else 0

/-- `numeric_limits<T>::max()`. -/
def IntType.tmax (T : IntType) : Int :=
  if T.signed then 2 ^ (T.bits - 1) - 1 else 2 ^ T.bits - 1

/-- `is_in_range<T,S>` (Database.cxx:695) for integral `T` and `S`:
`val <= max(T)`, and when `S` is signed additionally `val >= 0` for
unsigned `T` or `val >= min(T)` for signed `T`.  For unsigned `S` no lower
bound is checked. -/
def is_in_range (tmin tmax : Int) (tSigned sSigned : Bool) (val : Int) : Bool :=
  if val ≤ tmax then
    if sSigned then
      if tSigned then decide (tmin ≤ val) else decide (0 ≤ val)
    else true
  else false

/-- `convert_string<T>` dispatch (Database.cxx:648-665): signed integral
targets parse with `strtoll`, unsigned ones with `strtoull`. -/
def convStep (T : IntType) (p : Str) : StrtoOut :=
  if T.signed then strtoll p else strtoull p

/-- The per-value acceptance checks of `LoadDBvalue<T>`/`LoadDBarray<T>`
(Database.cxx:748, 790): fail with -131 if nothing was consumed, the first
unconsumed character is non-whitespace, `errno` is set, or the widened
value is out of range; otherwise succeed with the converted value. -/
def convFinish (T : IntType) (r : StrtoOut) : Int × Option Int :=
  if r.consumed = false then (-131, none)
  else if r.rest ≠ [] ∧ isspaceChar (r.rest.headD ' ') = false then (-131, none)
  else if r.erange = true then (-131, none)
  else if is_in_range T.tmin T.tmax T.signed T.signed r.val = false then (-131, none)
  else (0, some r.val)

/-- The conversion step of the numeric `LoadDBvalue<T>`
(Database.cxx:743-753), applied to the text fetched for the key. -/
def convert_scalar (T : IntType) (text : Str) : Int × Option Int :=
  convFinish T (convStep T text)

/-- The numeric `LoadDBvalue<T>` (Database.cxx:731): fetch the text and
convert it. -/
def LoadDBvalueInt (T : IntType) (file : List Str) (date : Int) (key : Str) :
    Int × Option Int :=
  if (LoadDBvalue file date key).1 = 0 then
    convert_scalar T ((LoadDBvalue file date key).2.getD [])
  else ((LoadDBvalue file date key).1, none)

/-- The field loop of `LoadDBarray<T>` (Database.cxx:786-798): convert a
field, run the acceptance checks, push the value; stop successfully when
the end pointer reached the end of the text, otherwise continue at the end
pointer.  Each successful conversion consumes at least one character, so
fuel `text.length + 1` never runs out. -/
def LoadDBarrayLoop (T : IntType) : Nat → Str → List Int → Int × Option (List Int)
  | 0, _, _ => (-131, none)
  | fuel + 1, p, acc =>
    if (convFinish T (convStep T p)).1 ≠ 0 then ((convFinish T (convStep T p)).1, none)
    else if (convStep T p).rest = [] then
      (0, some (acc ++ [(convFinish T (convStep T p)).2.getD 0]))
    else
      LoadDBarrayLoop T fuel (convStep T p).rest
        (acc ++ [(convFinish T (convStep T p)).2.getD 0])

/-- `LoadDBarray<T>` (Database.cxx:757): fetch the text for the key and
convert it as a whitespace-separated list of values.  (The pre-count that
only sizes the `reserve` has no observable effect and is omitted.) -/
def LoadDBarrayInt (T : IntType) (file : List Str) (date : Int) (key : Str) :
    Int × Option (List Int) :=
  if (LoadDBvalue file date key).1 ≠ 0 then ((LoadDBvalue file date key).1, none)
  else
    LoadDBarrayLoop T (((LoadDBvalue file date key).2.getD []).length + 1)
      ((LoadDBvalue file date key).2.getD []) []

/-- Row-major reshape of `LoadDBmatrix` (Database.cxx:821-828): row `irow`
holds `tmpval.at(i + irow*ncols)` for `i < ncols`; all indices are in
range when `ncols` divides the length. -/
def matReshape (vs : List Int) (ncols : Nat) : List (List Int) :=
  (List.range (vs.length / ncols)).map
    (fun irow => (List.range ncols).map (fun i => vs.getD (i + irow * ncols) 0))

/-- `LoadDBmatrix<T>` (Database.cxx:803): convert as an array, then require
`tmpval.size() % ncols == 0` (else -129) and reshape row-major.  The C++
`%` with `ncols == 0` divides by zero — undefined behavior — which the
model marks as `none`; every defined outcome is `some`. -/
def LoadDBmatrixInt (T : IntType) (file : List Str) (date : Int) (key : Str)
    (ncols : Nat) : Option (Int × Option (List (List Int))) :=
  if (LoadDBarrayInt T file date key).1 ≠ 0 then
    some ((LoadDBarrayInt T file date key).1, none)
  else if ncols = 0 then none
  else if ((LoadDBarrayInt T file date key).2.getD []).length % ncols ≠ 0 then
    some (-129, none)
  else
    some (0, some (matReshape ((LoadDBarrayInt T file date key).2.getD []) ncols))

/-! ### Request loader -/

/-- The request types of the model.  The source dispatches on `item->type`
over all numeric widths; the claims exercise the integral pipeline, which
this model instantiates at `Int_t` (`kInt`, `kIntV`, `kIntM`) plus plain
strings; every other tag follows the `default:` branch (-2).  The
floating-point variants run the same template code through the floating
parsers and are outside this integral model. -/
inductive DBtype where
  | kIntT
  | kIntV
  | kIntM
  | kString
  | kUnsupported
  deriving Repr, DecidableEq

/-- A loaded destination value. -/
inductive DBValue where
  | ival : Int → DBValue
  | ivec : List Int → DBValue
  | imat : List (List Int) → DBValue
  | sval : Str → DBValue
  deriving Repr, DecidableEq

/-- A `DBRequest` item (VarDef.h): `var` models whether the destination
pointer is non-null (null items are skipped); `descript` only feeds
diagnostics and is omitted. -/
structure DBRequest where
  name : Str
  var : Bool
  type : DBtype
  nelem : Nat
  optional : Bool
  search : Int
  deriving Repr, DecidableEq

/-- `load_and_assign<T>` (Database.cxx:833): for `nelem < 2` load a scalar
and write the destination on success; otherwise load an array, and when the
length differs from `nelem` report -130 with `nelem` updated to the actual
size and the destination unwritten.  Returns (status, written destination,
final nelem). -/
def load_and_assign (T : IntType) (file : List Str) (date : Int) (key : Str)
    (nelem : Nat) : Int × Option DBValue × Nat :=
  if nelem < 2 then
    ((LoadDBvalueInt T file date key).1,
     (if (LoadDBvalueInt T file date key).1 = 0
      then Option.map DBValue.ival (LoadDBvalueInt T file date key).2
      else none),
     nelem)
  else
    if (LoadDBarrayInt T file date key).1 = 0 then
      (if ((LoadDBarrayInt T file date key).2.getD []).length ≠ nelem then
        ((-130 : Int), none, ((LoadDBarrayInt T file date key).2.getD []).length)
       else
        (0, some (DBValue.ivec ((LoadDBarrayInt T file date key).2.getD [])),
         nelem))
    else ((LoadDBarrayInt T file date key).1, none, nelem)

/-- `load_and_assign_vector<T>` (Database.cxx:859): the array is loaded
directly into the destination vector; a nonzero expected `nelem` that
differs from the loaded size gives -130 with `nelem` updated.  (A failed
conversion leaves the destination vector cleared or partially filled; the
model does not track that partial state, only failure.) -/
def load_and_assign_vector (T : IntType) (file : List Str) (date : Int)
    (key : Str) (nelem : Nat) : Int × Option DBValue × Nat :=
  if (LoadDBarrayInt T file date key).1 = 0 then
    (if 0 < nelem ∧ ((LoadDBarrayInt T file date key).2.getD []).length ≠ nelem
     then
      ((-130 : Int),
       some (DBValue.ivec ((LoadDBarrayInt T file date key).2.getD [])),
       ((LoadDBarrayInt T file date key).2.getD []).length)
     else
      (0, some (DBValue.ivec ((LoadDBarrayInt T file date key).2.getD [])),
       nelem))
  else ((LoadDBarrayInt T file date key).1, none, nelem)

/-- `load_and_assign_matrix<T>` (Database.cxx:873): load the matrix with
`ncols := nelem`, unguarded — `nelem = 0` reaches the modulo-by-zero in
`LoadDBmatrix` (the `none` of the model). -/
def load_and_assign_matrix (T : IntType) (file : List Str) (date : Int)
    (key : Str) (nelem : Nat) : Option (Int × Option DBValue) :=
  match LoadDBmatrixInt T file date key nelem with
  | none => none
  | some (st, m) => some (st, m.map DBValue.imat)

/-- The `switch (item->type)` dispatch of `LoadDatabase`
(Database.cxx:902-960), instantiated at the integral model types. -/
def dispatchItem (file : List Str) (date : Int) (item : DBRequest)
    (key : Str) : Option (Int × Option DBValue × Nat) :=
  match item.type with
  | .kIntT => some (load_and_assign ⟨32, true⟩ file date key item.nelem)
  | .kIntV => some (load_and_assign_vector ⟨32, true⟩ file date key item.nelem)
  | .kIntM =>
    (load_and_assign_matrix ⟨32, true⟩ file date key item.nelem).map
      (fun r => (r.1, r.2, item.nelem))
  | .kString =>
    some ((LoadDBvalue file date key).1,
      (if (LoadDBvalue file date key).1 = 0
       then Option.map DBValue.sval (LoadDBvalue file date key).2
       else none),
      item.nelem)
  | .kUnsupported => some (-2, none, item.nelem)

/-- The status of dispatching one item at one fully composed key (`none`
encodes reaching undefined behavior). -/
def itemStatus (file : List Str) (date : Int) (item : DBRequest)
    (pfx : Str) : Option Int :=
  (dispatchItem file date item (pfx ++ item.name)).map (·.1)

/-- The per-item body of `LoadDatabase` (Database.cxx:896-1048) including
the hierarchical fallback recursion (Database.cxx:977-995): on a positive
(not-found) status, compute the effective search level, and if searching
applies, recurse with a single-item request (per-item search disabled) at
the chopped prefix; a negative effective search is incremented toward 0.
The recursion result is returned unchanged (a nonzero inner status breaks
out of the caller's loop; zero continues).  Without applicable search, an
optional item yields 0 and an untouched destination, a required one yields
`1 + idx` (its index in the current request array).  The fuel decreases
with the prefix (`ChopPrefix` shortens it), so `pfx.length + 1` never runs
out.  Returns `none` on undefined behavior, else (status, written value). -/
def loadItemCore (file : List Str) (date : Int) :
    Nat → DBRequest → Nat → Str → Int → Option (Int × Option DBValue)
  | 0, _, _, _, _ => some (-1, none)
  | fuel + 1, item, idx, pfx, search =>
    match dispatchItem file date item (pfx ++ item.name) with
    | none => none
    | some (st, v, _) =>
      if st = 0 then some (0, v)
      else if 0 < st then
        if (if item.search ≠ 0 then item.search else search) ≠ 0 ∧ pfx ≠ [] then
          if (if item.search ≠ 0 then item.search else search) < 0 ∨
              (ChopPrefixStr pfx).2 + 1
                ≥ (if item.search ≠ 0 then item.search else search) then
            loadItemCore file date fuel { item with search := 0 } 0
              (ChopPrefixStr pfx).1
              (if (if item.search ≠ 0 then item.search else search) < 0
               then (if item.search ≠ 0 then item.search else search) + 1
               else (if item.search ≠ 0 then item.search else search))
          else
            (if item.optional then some (0, none)
             else some (1 + (idx : Int), none))
        else
          (if item.optional then some (0, none)
           else some (1 + (idx : Int), none))
      else some (st, v)

/-- The item loop of `LoadDatabase` (Database.cxx:896-1052): items with a
null destination are skipped; a zero status continues with the next item,
any nonzero status breaks out and is returned.  The writes performed so
far are collected as (item index, value) pairs. -/
def loadDatabaseList (file : List Str) (date : Int) :
    List DBRequest → Nat → Str → Int → Option (Int × List (Nat × DBValue))
  | [], _, _, _ => some (0, [])
  | item :: rest, idx, pfx, search =>
    if item.var = false then loadDatabaseList file date rest (idx + 1) pfx search
    else
      match loadItemCore file date (pfx.length + 1) item idx pfx search with
      | none => none
      | some (st, v) =>
        if st = 0 then
          match loadDatabaseList file date rest (idx + 1) pfx search with
          | none => none
          | some (st', ws) =>
            some (st', (match v with
                        | some val => (idx, val) :: ws
                        | none => ws))
        else
          some (st, (match v with
                     | some val => [(idx, val)]
                     | none => []))

/-- `LoadDatabase` (Database.cxx:883): run the request list against the
file.  Returns `none` when undefined behavior is reached, otherwise the
final status and the destination writes. -/
def LoadDatabase (file : List Str) (date : Int) (req : List DBRequest)
    (pfx : Str) (search : Int) : Option (Int × List (Nat × DBValue)) :=
  loadDatabaseList file date req 0 pfx search

/-- Spec-side (for C5): the chain of prefixes the hierarchical search
probes, following the claim: the item's own key first; then, while the
effective search applies — nonzero search, nonempty prefix, and for a
positive search `N` only while `newlevel ≥ N` — ascend one dotted
component at a time, a negative search being incremented toward 0 (so
`-k` allows at most `k` ascensions). -/
def searchChain : Nat → Str → Int → List Str
  | 0, p, _ => [p]
  | fuel + 1, p, s =>
    p :: (if s ≠ 0 ∧ p ≠ [] then
            (if s < 0 ∨ (ChopPrefixStr p).2 + 1 ≥ s then
              searchChain fuel (ChopPrefixStr p).1 (if s < 0 then s + 1 else s)
             else [])
          else [])

/-- Spec-side (for C7): a physical line with no comment, continuation or
tab characters and no leading or trailing whitespace — the shape
`prepare_line` leaves untouched. -/
def cleanLine (l : Str) : Prop :=
  l ≠ [] ∧ ('#' ∉ l) ∧ ('\\' ∉ l) ∧ ('\t' ∉ l) ∧
  isspaceChar (l.headD 'x') = false ∧ isspaceChar (l.getLastD 'x') = false

instance (l : Str) : Decidable (cleanLine l) := by
  unfold cleanLine
  exact inferInstance

/-- Spec-side (for C2): `num` is a decimal numeral — an optional sign
followed by a nonempty digit run — denoting the integer `n`. -/
def NumLit (num : Str) (n : Int) : Prop :=
  ∃ sgn ds, num = sgn ++ ds ∧ (sgn = [] ∨ sgn = ['+'] ∨ sgn = ['-']) ∧
    ds ≠ [] ∧ (∀ c ∈ ds, isdigitChar c = true) ∧
    n = (if sgn = ['-'] then -(digitsVal ds : Int) else (digitsVal ds : Int))

/-- Spec-side (for C2, amended): the range condition under which scalar
conversion succeeds — a signed target takes the mathematical value within
`[min(T), max(T)]`; an unsigned target requires the magnitude to fit
`unsigned long long` and the value reduced modulo 2^64 to be at most
`max(T)` (so certain negative sources succeed by wraparound). -/
def specInRange (T : IntType) (n : Int) : Prop :=
  if T.signed then T.tmin ≤ n ∧ n ≤ T.tmax
  else -(2 ^ 64) < n ∧ n < 2 ^ 64 ∧ Int.emod n (2 ^ 64) ≤ T.tmax

instance (T : IntType) (n : Int) : Decidable (specInRange T n) := by
  unfold specInRange
  exact inferInstance

/-- Scenario file for C1 (spec section 8, scenario 1, with the blank lines
the line reader's assignment-continuation demands before date stamps). -/
def c1File : List Str :=
  ["[ 2000-01-01 00:00:00 ]".toList, "x = 1".toList, [],
   "[ 2010-06-15 12:00:00 ]".toList, "x = 2".toList]

/-- The C5 scenario file: only `L.nw = 7`. -/
def nwFile : List Str := ["L.nw = 7".toList]

/-- The C5 scenario request: key `nw`, a non-optional scalar
following the global search level. -/
def nwItem : DBRequest := ⟨"nw".toList, true, .kIntT, 1, false, 0⟩

/-- The C6 scenario file: only `L.a = 1`. -/
def abFile : List Str := ["L.a = 1".toList]

/-- The C6 scenario request 0: key `a`, found at `L.a`. -/
def aItem : DBRequest := ⟨"a".toList, true, .kIntT, 1, false, 0⟩

/-- The C6 scenario request 1: key `b`, missing everywhere. -/
def bItem : DBRequest := ⟨"b".toList, true, .kIntT, 1, false, 0⟩

/-- The filesystem environment `GetDBFileList` consults through `gSystem`:
the optional value of the `DB_DIR` environment variable, which directories
can be opened, and the entries listed for a directory. -/
structure FSenv where
  dbdirEnv : Option Str
  openable : Str → Bool
  entries : Str → List Str

/-- The directory search list of `GetDBFileList` (Database.cxx:104-110):
`$DB_DIR` if set, then `DB`, `db`, `.`. -/
def dirSearchList (fs : FSenv) : List Str :=
  (match fs.dbdirEnv with
   | some d => [d]
   | none => []) ++ ["DB".toList, "db".toList, ".".toList]

/-- The name normalization of `GetDBFileList` (Database.cxx:167-169):
prepend `db_` unless the name already starts with it. -/
def dbStem (name : Str) : Str :=
  if name.take 3 = "db_".toList then name else "db_".toList ++ name

/-- The extension normalization of `GetDBFileList` (Database.cxx:177-182):
a trailing `.` is completed to `.dat`; otherwise `.dat` is appended unless
the last four characters already are `.dat`. -/
def dbFileName (name : Str) : Str :=
  if (dbStem name).getLastD ' ' = '.' then dbStem name ++ "dat".toList
  else if (dbStem name).drop ((dbStem name).length - 4) = ".dat".toList
  then dbStem name
  else dbStem name ++ ".dat".toList

/-- The date-directory selection loop of `GetDBFileList`
(Database.cxx:149-163) after the first element: `prev` is the entry the
iterator last passed; a directory whose date exceeds the requested one
selects the previous entry, the final entry is valid until infinity. -/
def dateDirGo (date : Nat) (prev : Str) : List Str → Option Str
  | [] => none
  | d :: rest =>
    if date < digitsVal d then some prev
    else if rest = [] then some d
    else dateDirGo date d rest

/-- Entry to the date-directory selection (Database.cxx:146-163): on the
sorted list of `YYYYMMDD` entries, nothing is selected when the requested
date precedes the first entry. -/
def dateDirSelect (date : Nat) : List Str → Option Str
  | [] => none
  | d :: rest =>
    if date < digitsVal d then none
    else if rest = [] then some d
    else dateDirGo date d rest

/-- Insertion step of the entry sort: keep ascending numeric order of
the 8-digit names (stable, like `std::sort` on equal-length digit
strings, whose lexicographic order is the numeric one). -/
def insertSorted (a : Str) : List Str → List Str
  | [] => [a]
  | b :: rest =>
    if digitsVal a ≤ digitsVal b then a :: b :: rest
    else b :: insertSorted a rest

/-- The `sort(time_dirs)` of Database.cxx:148 as an insertion sort. -/
def sortDirs : List Str → List Str
  | [] => []
  | a :: rest => insertSorted a (sortDirs rest)

/-- `GetDBFileList` (Database.cxx:84): empty names give nothing; a name
with a `/` is returned verbatim; otherwise the first openable directory of
the search list becomes the database directory (none openable gives
nothing), its 8-digit entries are sorted and searched for the date
directory, and the candidates are the bare file name, then the date
directory, `DEFAULT`, and the database-directory candidates.  The
`NDEBUG` guard against a stem shorter than 4 returns nothing.  (Entries
of 8 digits are compared numerically, which on equal-length digit strings
is the lexicographic `sort` of the source.) -/
def GetDBFileList (fs : FSenv) (name : Str) (date : Nat) : List Str :=
  if name = [] then []
  else if name.any (· = '/') then [name]
  else
    match (dirSearchList fs).find? fs.openable with
    | none => []
    | some thedir =>
      if (dbStem name).length < 4 then []
      else
        [dbFileName name]
        ++ (match dateDirSelect date
              (sortDirs ((fs.entries thedir).filter (fun it =>
                decide (it.length = 8) && it.all isdigitChar))) with
            | some d => [thedir ++ '/' :: (d ++ '/' :: dbFileName name)]
            | none => [])
        ++ (if "DEFAULT".toList ∈ fs.entries thedir then
              [thedir ++ '/' :: ("DEFAULT".toList ++ '/' :: dbFileName name)]
            else [])
        ++ [thedir ++ '/' :: dbFileName name]

/-- A plain environment: no `DB_DIR`, only the current directory opens,
and it is empty. -/
def c8fs : FSenv := ⟨none, fun d => d == ".".toList, fun _ => []⟩

/-! ### C1 helper lemmas -/

/-- The status of `IsDBkey` is 0, 1 or -1. -/
lemma IsDBkey_fst_cases (line key : Str) :
    (IsDBkey line key).1 = 0 ∨ (IsDBkey line key).1 = 1 ∨
      (IsDBkey line key).1 = -1 := by
  unfold IsDBkey
  split
  · simp
  · dsimp only
    split_ifs <;> simp

/-- A status-1 `IsDBkey` result carries a value text. -/
lemma IsDBkey_snd_of_one (line key : Str) :
    (IsDBkey line key).1 = 1 →
      (IsDBkey line key).2 = some ((IsDBkey line key).2.getD []) := by
  unfold IsDBkey
  split
  · simp
  · dsimp only
    split_ifs <;> simp

/-- Unfolding `greedyStep` when the match is honored. -/
lemma greedyStep_apply_pos (date : Int) (acc : Int × Option Str) (p : Str × Int)
    (h : p.2 ≤ date ∧ acc.1 ≤ p.2) : greedyStep date acc p = (p.2, some p.1) := by
  unfold greedyStep
  exact if_pos h

/-- Unfolding `greedyStep` when the match is skipped. -/
lemma greedyStep_apply_neg (date : Int) (acc : Int × Option Str) (p : Str × Int)
    (h : ¬(p.2 ≤ date ∧ acc.1 ≤ p.2)) : greedyStep date acc p = acc := by
  unfold greedyStep
  exact if_neg h

/-- `mBest` over an appended match. -/
lemma mBest_append (date : Int) (M : List (Str × Int)) (p : Str × Int) :
    mBest date (M ++ [p]) =
      if p.2 ≤ date then max (mBest date M) p.2 else mBest date M := by
  unfold mBest
  rw [List.foldl_append]
  rfl

/-- The first component of the greedy fold is the greatest eligible
governing stamp. -/
lemma greedyFold_fst (date : Int) (M : List (Str × Int)) :
    (greedyFold date M epoch1995 none).1 = mBest date M := by
  induction M using List.reverseRecOn with
  | nil => rfl
  | append_singleton M p ih =>
    unfold greedyFold at ih ⊢
    rw [List.foldl_append, mBest_append]
    simp only [List.foldl_cons, List.foldl_nil]
    by_cases hd : p.2 ≤ date
    · by_cases hb : (List.foldl (greedyStep date) (epoch1995, none) M).1 ≤ p.2
      · rw [greedyStep_apply_pos date _ p ⟨hd, hb⟩]
        rw [ih] at hb
        rw [if_pos hd, max_eq_right hb]
      · rw [greedyStep_apply_neg date _ p (by tauto)]
        rw [ih] at hb ⊢
        rw [if_pos hd, max_eq_left (le_of_not_le hb)]
    · rw [greedyStep_apply_neg date _ p (by tauto), if_neg hd, ih]

/-- The second component of the greedy fold is the spec-side resolver
result: the last match whose stamp is the greatest eligible stamp. -/
lemma greedyFold_snd (date : Int) (M : List (Str × Int)) :
    (greedyFold date M epoch1995 none).2 = specResolve date M := by
  induction M using List.reverseRecOn with
  | nil => rfl
  | append_singleton M p ih =>
    have hfst := greedyFold_fst date M
    unfold greedyFold at ih hfst ⊢
    unfold specResolve at ih ⊢
    rw [List.foldl_append]
    simp only [List.foldl_cons, List.foldl_nil]
    by_cases hd : p.2 ≤ date
    · by_cases hb : (List.foldl (greedyStep date) (epoch1995, none) M).1 ≤ p.2
      · rw [greedyStep_apply_pos date _ p ⟨hd, hb⟩]
        rw [hfst] at hb
        have hm : mBest date (M ++ [p]) = p.2 := by
          rw [mBest_append, if_pos hd]
          exact max_eq_right hb
        simp only [hm, List.filter_append]
        have hfp : List.filter (fun q => decide (q.2 ≤ date ∧ q.2 = p.2)) [p] = [p] := by
          simp [hd]
        rw [hfp, List.getLast?_concat]
        rfl
      · rw [greedyStep_apply_neg date _ p (by tauto)]
        rw [hfst] at hb
        have hlt : p.2 < mBest date M := lt_of_not_le hb
        have hm : mBest date (M ++ [p]) = mBest date M := by
          rw [mBest_append, if_pos hd]
          exact max_eq_left (le_of_lt hlt)
        simp only [hm, List.filter_append]
        have hfp : List.filter
            (fun q => decide (q.2 ≤ date ∧ q.2 = mBest date M)) [p] = [] := by
          simp [ne_of_lt hlt]
        rw [hfp, List.append_nil]
        exact ih
    · rw [greedyStep_apply_neg date _ p (by tauto)]
      have hm : mBest date (M ++ [p]) = mBest date M := by
        rw [mBest_append, if_neg hd]
      simp only [hm, List.filter_append]
      have hfp : List.filter
          (fun q => decide (q.2 ≤ date ∧ q.2 = mBest date M)) [p] = [] := by
        simp [hd]
      rw [hfp, List.append_nil]
      exact ih

/-- The scan of `LoadDBvalue` computes the greedy honoring fold over the
matches with their governing stamps, provided no logical line is at the
same time a `key = value` candidate and a date stamp, and the `ignore`
flag is in its invariant form `keydate > date or keydate < prevdate`. -/
lemma scan_eq_greedy (date : Int) (key : Str) :
    ∀ (lines : List Str) (cur prev : Int) (v : Option Str),
    (∀ l ∈ lines, (IsDBkey l key).1 ≠ 0 → IsDBdate l = none) →
    (lines.foldl (scanStep date key)
        ⟨cur, prev, v, decide (date < cur) || decide (cur < prev)⟩).value
      = (greedyFold date (govMatches key lines cur) prev v).2 := by
  intro lines
  induction lines with
  | nil =>
    intro cur prev v _
    rfl
  | cons l rest ih =>
    intro cur prev v hwf
    have hl : (IsDBkey l key).1 ≠ 0 → IsDBdate l = none := hwf l (by simp)
    have hrest : ∀ l' ∈ rest, (IsDBkey l' key).1 ≠ 0 → IsDBdate l' = none :=
      fun l' hm => hwf l' (List.mem_cons_of_mem l hm)
    rw [List.foldl_cons]
    rcases IsDBkey_fst_cases l key with hs | hs | hs
    · -- no `=` in the line: the date recognizer is consulted
      rcases hd : IsDBdate l with _ | d
      · have hstep : scanStep date key
            ⟨cur, prev, v, decide (date < cur) || decide (cur < prev)⟩ l
            = ⟨cur, prev, v, decide (date < cur) || decide (cur < prev)⟩ := by
          unfold scanStep
          rw [if_neg (by simp [hs]), hd]
        have hgov : govMatches key (l :: rest) cur = govMatches key rest cur := by
          rw [govMatches, if_neg (by rw [hs]; decide), if_pos hs, hd]
        rw [hgov, hstep]
        exact ih cur prev v hrest
      · have hstep : scanStep date key
            ⟨cur, prev, v, decide (date < cur) || decide (cur < prev)⟩ l
            = ⟨d, prev, v, decide (date < d) || decide (d < prev)⟩ := by
          unfold scanStep
          rw [if_neg (by simp [hs]), hd]
        have hgov : govMatches key (l :: rest) cur = govMatches key rest d := by
          rw [govMatches, if_neg (by rw [hs]; decide), if_pos hs, hd]
        rw [hgov, hstep]
        exact ih d prev v hrest
    · -- a matching assignment
      have hdate : IsDBdate l = none := hl (by rw [hs]; decide)
      have hsnd := IsDBkey_snd_of_one l key hs
      have hgov : govMatches key (l :: rest) cur
          = ((IsDBkey l key).2.getD [], cur) :: govMatches key rest cur := by
        rw [govMatches, if_pos hs]
      rw [hgov]
      unfold greedyFold
      rw [List.foldl_cons]
      by_cases hig : date < cur ∨ cur < prev
      · -- ignored: the match is skipped on both sides
        have higT : (decide (date < cur) || decide (cur < prev)) = true := by
          rcases hig with h | h <;> simp [h]
        have hstep : scanStep date key
            ⟨cur, prev, v, decide (date < cur) || decide (cur < prev)⟩ l
            = ⟨cur, prev, v, decide (date < cur) || decide (cur < prev)⟩ := by
          unfold scanStep
          rw [if_neg (by simp [higT]), hdate]
        have hgs : greedyStep date (prev, v) ((IsDBkey l key).2.getD [], cur)
            = (prev, v) := by
          refine greedyStep_apply_neg date _ _ ?_
          rintro ⟨h1, h2⟩
          rcases hig with h | h
          · exact absurd h1 (not_le.mpr h)
          · exact absurd h2 (not_le.mpr h)
        rw [hstep, hgs]
        exact ih cur prev v hrest
      · -- honored: both sides record the stamp and the text
        push_neg at hig
        have higF : (decide (date < cur) || decide (cur < prev)) = false := by
          simp [not_lt.mpr hig.1, not_lt.mpr hig.2]
        have hstep : scanStep date key
            ⟨cur, prev, v, decide (date < cur) || decide (cur < prev)⟩ l
            = ⟨cur, cur, (IsDBkey l key).2,
               decide (date < cur) || decide (cur < cur)⟩ := by
          unfold scanStep
          rw [if_pos ⟨higF, by rw [hs]; decide⟩, if_pos (by rw [hs]; decide)]
          have h1 : decide (cur < cur) = false := by simp
          have h2 : decide (cur < prev) = false := by simp [not_lt.mpr hig.2]
          simp only [higF, h1, h2, Bool.or_false]
        have hgs : greedyStep date (prev, v) ((IsDBkey l key).2.getD [], cur)
            = (cur, (IsDBkey l key).2) := by
          rw [greedyStep_apply_pos date _ _ ⟨hig.1, hig.2⟩]
          rw [← hsnd]
        rw [hstep, hgs]
        exact ih cur cur (IsDBkey l key).2 hrest
    · -- an `=` line whose left side does not match: skipped on both sides
      have hdate : IsDBdate l = none := hl (by rw [hs]; decide)
      have hgov : govMatches key (l :: rest) cur = govMatches key rest cur := by
        rw [govMatches, if_neg (by rw [hs]; decide), if_neg (by rw [hs]; decide)]
      have hstep : scanStep date key
          ⟨cur, prev, v, decide (date < cur) || decide (cur < prev)⟩ l
          = ⟨cur, prev, v, decide (date < cur) || decide (cur < prev)⟩ := by
        unfold scanStep
        by_cases h : (decide (date < cur) || decide (cur < prev)) = false
            ∧ (IsDBkey l key).1 ≠ 0
        · rw [if_pos h, if_neg (by rw [hs]; decide)]
        · rw [if_neg h, hdate]
      rw [hgov, hstep]
      exact ih cur prev v hrest

/-- The read loop of `LoadDBvalue` is the fold of `scanStep` over the
logical lines produced by `ReadDBline` (with the same fuel). -/
lemma LoadDBvalueAux_eq_foldl (file : List Str) (date : Int) (key : Str) :
    ∀ (fuel pos : Nat) (st : ScanState),
    LoadDBvalueAux file date key fuel pos st
      = (logicalLinesAux file fuel pos).foldl (scanStep date key) st := by
  intro fuel
  induction fuel with
  | zero => intro pos st; rfl
  | succ n ih =>
    intro pos st
    unfold LoadDBvalueAux logicalLinesAux
    by_cases h1 : (ReadDBline file pos).1
    · rw [if_pos h1, if_pos h1]
      rfl
    · rw [if_neg h1, if_neg h1]
      by_cases h2 : (ReadDBline file pos).2.1 = []
      · rw [if_pos h2, if_pos h2, ih]
      · rw [if_neg h2, if_neg h2, ih, List.foldl_cons]

/-- C1: for every file and requested date (at or after the 1995 sentinel,
as all `TDatime` values are), `LoadDBvalue` returns the text of the
assignment whose governing stamp is the greatest stamp at most the
requested date that is also at least every stamp previously honored during
the scan; among assignments under equal stamps the last one in file order
wins (`specResolve` picks the last match whose governing stamp equals the
greatest eligible stamp, which by `greedyFold_fst`/`greedyFold_snd` is
exactly the greedy "honor when `current_stamp ≤ date` and
`current_stamp ≥ last_honored`" scan, whose ignore flag is maintained as
`ignore = (current_stamp > requested_date) or
(current_stamp < last_honored_stamp)` in `scanStep`).  The hypothesis
rules out pathological lines that are simultaneously a `key =` candidate
and a date stamp, where the two recognizers would compete. -/
theorem c1_load_value_resolution (file : List Str) (date : Int) (key : Str)
    (hdate : epoch1995 ≤ date)
    (hwf : ∀ l ∈ logicalLines file, (IsDBkey l key).1 ≠ 0 → IsDBdate l = none) :
    LoadDBvalue file date key =
      match specResolve date (govMatches key (logicalLines file) epoch1995) with
      | some t => (0, some t)
      | none => (1, none) := by
  unfold LoadDBvalue
  unfold logicalLines at hwf ⊢
  rw [LoadDBvalueAux_eq_foldl]
  have h0 : (⟨epoch1995, epoch1995, none, false⟩ : ScanState)
      = ⟨epoch1995, epoch1995, none,
         decide (date < epoch1995) || decide (epoch1995 < epoch1995)⟩ := by
    have h1 : decide (date < epoch1995) = false := by simp [not_lt.mpr hdate]
    have h2 : decide (epoch1995 < epoch1995) = false := by simp
    rw [h1, h2]
    rfl
  rw [h0]
  dsimp only
  rw [scan_eq_greedy date key _ epoch1995 epoch1995 none hwf, greedyFold_snd]

/-! ### Generic list and character lemmas -/

lemma takeWhile_append_all {p : Char → Bool} {w t : Str}
    (hw : ∀ c ∈ w, p c = true) :
    (w ++ t).takeWhile p = w ++ t.takeWhile p := by
  induction w with
  | nil => rfl
  | cons c w ih =>
    rw [List.cons_append, List.takeWhile_cons, if_pos (hw c (by simp)),
      ih (fun c hc => hw c (by simp [hc])), List.cons_append]

lemma dropWhile_append_all {p : Char → Bool} {w t : Str}
    (hw : ∀ c ∈ w, p c = true) :
    (w ++ t).dropWhile p = t.dropWhile p := by
  induction w with
  | nil => rfl
  | cons c w ih =>
    rw [List.cons_append, List.dropWhile_cons, if_pos (hw c (by simp)),
      ih (fun c hc => hw c (by simp [hc]))]

lemma isspace_not_digit {c : Char} (h : isspaceChar c = true) :
    isdigitChar c = false := by
  unfold isspaceChar at h
  simp only [Bool.or_eq_true, decide_eq_true_eq] at h
  rcases h with ((((h | h) | h) | h) | h) | h <;> subst h <;> decide

lemma isdigit_ne_minus {c : Char} (h : isdigitChar c = true) : c ≠ '-' := by
  rintro rfl
  exact absurd h (by decide)

lemma isdigit_ne_plus {c : Char} (h : isdigitChar c = true) : c ≠ '+' := by
  rintro rfl
  exact absurd h (by decide)

lemma isdigit_not_space {c : Char} (h : isdigitChar c = true) :
    isspaceChar c = false := by
  cases hs : isspaceChar c
  · rfl
  · exact absurd (isspace_not_digit hs) (by simp [h])

lemma splitSign_other {c : Char} {t : Str} (h1 : c ≠ '-') (h2 : c ≠ '+') :
    splitSign (c :: t) = (false, c :: t) := by
  unfold splitSign
  split
  · rename_i heq
    rw [List.cons_eq_cons] at heq
    exact absurd heq.1 h1
  · rename_i heq
    rw [List.cons_eq_cons] at heq
    exact absurd heq.1 h2
  · rfl

/-! ### Characterization of the strtol models (for C2/C3) -/

lemma strtollClamp_consumed (rest : Str) (raw : Int) :
    (strtollClamp rest raw).consumed = true := by
  unfold strtollClamp
  split_ifs <;> rfl

lemma strtollClamp_rest (rest : Str) (raw : Int) :
    (strtollClamp rest raw).rest = rest := by
  unfold strtollClamp
  split_ifs <;> rfl

lemma strtollClamp_of_inrange {rest : Str} {raw : Int}
    (h1 : i64min ≤ raw) (h2 : raw ≤ i64max) :
    strtollClamp rest raw = ⟨raw, false, true, rest⟩ := by
  unfold strtollClamp
  rw [if_neg (not_lt.mpr h1), if_neg (not_lt.mpr h2)]

lemma strtollClamp_erange_false {rest : Str} {raw : Int}
    (h : (strtollClamp rest raw).erange = false) :
    i64min ≤ raw ∧ raw ≤ i64max ∧ (strtollClamp rest raw).val = raw := by
  unfold strtollClamp at *
  split_ifs at h ⊢ with h1 h2
  exact ⟨not_lt.mp h1, not_lt.mp h2, rfl⟩

lemma strtoullWrap_consumed (rest : Str) (raw : Int) :
    (strtoullWrap rest raw).consumed = true := by
  unfold strtoullWrap
  split_ifs <;> rfl

lemma strtoullWrap_rest (rest : Str) (raw : Int) :
    (strtoullWrap rest raw).rest = rest := by
  unfold strtoullWrap
  split_ifs <;> rfl

lemma strtoullWrap_of_inrange {rest : Str} {raw : Int}
    (h1 : -u64max ≤ raw) (h2 : raw ≤ u64max) :
    strtoullWrap rest raw = ⟨Int.emod raw (2 ^ 64), false, true, rest⟩ := by
  unfold strtoullWrap
  rw [if_neg (by rw [not_or]; exact ⟨not_lt.mpr h1, not_lt.mpr h2⟩)]

lemma strtoullWrap_erange_false {rest : Str} {raw : Int}
    (h : (strtoullWrap rest raw).erange = false) :
    -u64max ≤ raw ∧ raw ≤ u64max ∧
      (strtoullWrap rest raw).val = Int.emod raw (2 ^ 64) := by
  unfold strtoullWrap at *
  split_ifs at h ⊢ with h1
  rw [not_or] at h1
  exact ⟨not_lt.mp h1.1, not_lt.mp h1.2, rfl⟩

lemma signBody_eq (s : Str) : signBody s = dsOf s ++ restOf s := by
  unfold dsOf restOf
  rw [List.takeWhile_append_dropWhile]

lemma dsOf_all_digits (s : Str) : ∀ c ∈ dsOf s, isdigitChar c = true :=
  fun _ hc => List.mem_takeWhile_imp hc

lemma is_in_range_signed (a b v : Int) :
    is_in_range a b true true v = true ↔ a ≤ v ∧ v ≤ b := by
  unfold is_in_range
  by_cases h : v ≤ b
  · rw [if_pos h, if_pos rfl, if_pos rfl]
    simp [h]
  · rw [if_neg h]
    simp [h]

lemma is_in_range_unsigned (a b v : Int) :
    is_in_range a b false false v = true ↔ v ≤ b := by
  unfold is_in_range
  by_cases h : v ≤ b
  · rw [if_pos h, if_neg (by simp)]
    simp [h]
  · rw [if_neg h]
    simp [h]

lemma convFinish_fst_cases (T : IntType) (r : StrtoOut) :
    (convFinish T r).1 = 0 ∨ (convFinish T r).1 = -131 := by
  unfold convFinish
  split_ifs <;> simp

lemma convFinish_eq_zero_iff (T : IntType) (r : StrtoOut) :
    (convFinish T r).1 = 0 ↔
      r.consumed = true ∧
      (r.rest = [] ∨ isspaceChar (r.rest.headD ' ') = true) ∧
      r.erange = false ∧
      is_in_range T.tmin T.tmax T.signed T.signed r.val = true := by
  constructor
  · intro h
    unfold convFinish at h
    split_ifs at h with h1 h2 h3 h4
    · exact absurd h (by decide)
    · exact absurd h (by decide)
    · exact absurd h (by decide)
    · exact absurd h (by decide)
    · refine ⟨?_, ?_, ?_, ?_⟩
      · revert h1; cases r.consumed <;> simp
      · by_cases hr : r.rest = []
        · exact Or.inl hr
        · refine Or.inr ?_
          have := not_and.mp h2 hr
          revert this
          cases isspaceChar (r.rest.headD ' ') <;> simp
      · revert h3; cases r.erange <;> simp
      · revert h4
        cases is_in_range T.tmin T.tmax T.signed T.signed r.val <;> simp
  · rintro ⟨c1, c2, c3, c4⟩
    unfold convFinish
    rw [if_neg (by simp [c1]), if_neg ?hrest, if_neg (by simp [c3]),
      if_neg (by simp [c4])]
    case hrest =>
      rcases c2 with h | h
      · exact fun hc => hc.1 h
      · rw [h]
        exact fun hc => absurd hc.2 (by simp)

lemma convFinish_val_of_zero (T : IntType) (r : StrtoOut)
    (h : (convFinish T r).1 = 0) : (convFinish T r).2 = some r.val := by
  unfold convFinish at *
  split_ifs at h ⊢
  · exact absurd h (by decide)
  · exact absurd h (by decide)
  · exact absurd h (by decide)
  · exact absurd h (by decide)
  · rfl

lemma strtoll_eq_of_ds {s : Str} (h : dsOf s ≠ []) :
    strtoll s = strtollClamp (restOf s) (rawOf s) := by
  unfold strtoll
  rw [if_neg h]

lemma strtoll_consumed_imp {s : Str} (h : (strtoll s).consumed = true) :
    dsOf s ≠ [] := by
  intro hds
  unfold strtoll at h
  rw [if_pos hds] at h
  simp at h

lemma strtoull_eq_of_ds {s : Str} (h : dsOf s ≠ []) :
    strtoull s = strtoullWrap (restOf s) (rawOf s) := by
  unfold strtoull
  rw [if_neg h]

lemma strtoull_consumed_imp {s : Str} (h : (strtoull s).consumed = true) :
    dsOf s ≠ [] := by
  intro hds
  unfold strtoull at h
  rw [if_pos hds] at h
  simp at h

/-- Running the parse on a decomposed input recovers the decomposition:
whitespace, then an optional sign, then the digit run, then a remainder
that starts with a non-digit (empty or whitespace). -/
lemma parse_of_decomp {w sgn ds rest : Str}
    (hw : ∀ c ∈ w, isspaceChar c = true)
    (hsgn : sgn = [] ∨ sgn = ['+'] ∨ sgn = ['-'])
    (hds : ds ≠ []) (hdig : ∀ c ∈ ds, isdigitChar c = true)
    (hro : rest = [] ∨ isspaceChar (rest.headD ' ') = true) :
    dsOf (w ++ (sgn ++ ds) ++ rest) = ds ∧
    restOf (w ++ (sgn ++ ds) ++ rest) = rest ∧
    negOf (w ++ (sgn ++ ds) ++ rest) = decide (sgn = ['-']) := by
  have hdrop : (w ++ (sgn ++ ds) ++ rest).dropWhile isspaceChar
      = sgn ++ (ds ++ rest) := by
    rw [List.append_assoc, dropWhile_append_all hw, List.append_assoc]
    rcases hsgn with h | h | h
    · subst h
      rcases ds with _ | ⟨d, ds'⟩
      · exact absurd rfl hds
      · rw [List.nil_append, List.cons_append, List.dropWhile_cons,
          if_neg (by simp [isdigit_not_space (hdig d (by simp))])]
    · subst h
      rw [List.cons_append, List.dropWhile_cons, if_neg (by decide)]
    · subst h
      rw [List.cons_append, List.dropWhile_cons, if_neg (by decide)]
  have hsplit : splitSign (sgn ++ (ds ++ rest))
      = (decide (sgn = ['-']), ds ++ rest) := by
    rcases hsgn with h | h | h
    · subst h
      rcases ds with _ | ⟨d, ds'⟩
      · exact absurd rfl hds
      · rw [List.nil_append, List.cons_append,
          splitSign_other (isdigit_ne_minus (hdig d (by simp)))
            (isdigit_ne_plus (hdig d (by simp)))]
        simp
    · subst h
      rw [List.cons_append]
      simp [splitSign]
    · subst h
      rw [List.cons_append]
      simp [splitSign]
  have htk : (ds ++ rest).takeWhile isdigitChar = ds := by
    rw [takeWhile_append_all hdig]
    rcases rest with _ | ⟨r, rs⟩
    · simp
    · rcases hro with h | h
      · exact absurd h (by simp)
      · have h' : isspaceChar r = true := by simpa using h
        rw [List.takeWhile_cons, if_neg (by simp [isspace_not_digit h'])]
        simp
  have hdr : (ds ++ rest).dropWhile isdigitChar = rest := by
    rw [dropWhile_append_all hdig]
    rcases rest with _ | ⟨r, rs⟩
    · simp
    · rcases hro with h | h
      · exact absurd h (by simp)
      · have h' : isspaceChar r = true := by simpa using h
        rw [List.dropWhile_cons, if_neg (by simp [isspace_not_digit h'])]
  refine ⟨?_, ?_, ?_⟩
  · unfold dsOf signBody
    rw [hdrop, hsplit, htk]
  · unfold restOf signBody
    rw [hdrop, hsplit, hdr]
  · unfold negOf
    rw [hdrop, hsplit]

/-- A consumed parse yields a decomposition of the input. -/
lemma decomp_of_ds {s : Str} (h : dsOf s ≠ []) :
    ∃ sgn, (sgn = [] ∨ sgn = ['+'] ∨ sgn = ['-']) ∧
      s = s.takeWhile isspaceChar ++ (sgn ++ dsOf s) ++ restOf s ∧
      negOf s = decide (sgn = ['-']) := by
  have hsplit0 : s.takeWhile isspaceChar ++ s.dropWhile isspaceChar = s :=
    List.takeWhile_append_dropWhile isspaceChar s
  rcases hs1 : s.dropWhile isspaceChar with _ | ⟨c, t⟩
  · exfalso
    apply h
    unfold dsOf signBody
    rw [hs1]
    rfl
  · have hsb0 : signBody s = (splitSign (c :: t)).2 := by
      unfold signBody
      rw [hs1]
    have hneg0 : negOf s = (splitSign (c :: t)).1 := by
      unfold negOf
      rw [hs1]
    by_cases hcm : c = '-'
    · subst hcm
      refine ⟨['-'], Or.inr (Or.inr rfl), ?_, ?_⟩
      · have hsb : dsOf s ++ restOf s = t := by
          rw [← signBody_eq, hsb0]
          rfl
        conv_lhs => rw [← hsplit0, hs1]
        simp only [List.append_assoc, List.cons_append, List.nil_append]
        rw [hsb]
      · rw [hneg0]
        simp [splitSign]
    · by_cases hcp : c = '+'
      · subst hcp
        refine ⟨['+'], Or.inr (Or.inl rfl), ?_, ?_⟩
        · have hsb : dsOf s ++ restOf s = t := by
            rw [← signBody_eq, hsb0]
            rfl
          conv_lhs => rw [← hsplit0, hs1]
          simp only [List.append_assoc, List.cons_append, List.nil_append]
          rw [hsb]
        · rw [hneg0]
          simp [splitSign]
      · refine ⟨[], Or.inl rfl, ?_, ?_⟩
        · have hsb : dsOf s ++ restOf s = c :: t := by
            rw [← signBody_eq, hsb0, splitSign_other hcm hcp]
          conv_lhs => rw [← hsplit0, hs1]
          simp only [List.append_assoc, List.nil_append]
          rw [hsb]
        · rw [hneg0, splitSign_other hcm hcp]
          simp

/-- Bounds of a signed target within `long long`. -/
lemma signed_bounds (T : IntType) (hb1 : 0 < T.bits) (hb2 : T.bits ≤ 64)
    (hsig : T.signed = true) : i64min ≤ T.tmin ∧ T.tmax ≤ i64max := by
  unfold IntType.tmin IntType.tmax i64min i64max
  rw [if_pos hsig, if_pos hsig]
  have hp : (2 : Int) ^ (T.bits - 1) ≤ 2 ^ 63 :=
    pow_le_pow_right₀ (by norm_num) (by omega)
  omega

/-- Bound of an unsigned target within `unsigned long long`. -/
lemma unsigned_bound (T : IntType) (hb2 : T.bits ≤ 64)
    (hsig : T.signed = false) : T.tmax ≤ u64max := by
  unfold IntType.tmax u64max
  rw [if_neg (by simp [hsig])]
  have hp : (2 : Int) ^ T.bits ≤ 2 ^ 64 :=
    pow_le_pow_right₀ (by norm_num) (by omega)
  omega

lemma is_in_range_unsigned_false (a b v : Int) (h : ¬v ≤ b) :
    is_in_range a b false false v = false := by
  cases hh : is_in_range a b false false v
  · rfl
  · exact absurd ((is_in_range_unsigned a b v).mp hh) h

/-- C2 (counterexample): the scalar converter only inspects the first
character after the consumed numeral, so `"5 x"` — which is not an integer
followed by nothing but whitespace, since `'x'` follows — nevertheless
converts successfully to 5 for an `Int_t` target. -/
theorem c2_counterexample :
    convert_scalar ⟨32, true⟩ ['5', ' ', 'x'] = (0, some 5) ∧
    ¬(∀ c ∈ [' ', 'x'], isspaceChar c = true) := by
  constructor
  · decide
  · decide

/-- C2 (amended): scalar numeric conversion for an integral target either
succeeds or fails with -131, and it succeeds exactly when the input splits
as leading whitespace, a signed decimal numeral of value `n`, and a
remainder that is empty or starts with a whitespace character (characters
beyond that first one are not examined); for signed targets `n` must lie
in `[min(T), max(T)]`, while for unsigned targets the magnitude must fit
`unsigned long long` and `n` reduced modulo 2^64 must be at most `max(T)`
(so negative sources can succeed by wraparound). -/
theorem c2_scalar_conversion_amended (T : IntType) (s : Str)
    (hb1 : 0 < T.bits) (hb2 : T.bits ≤ 64) :
    ((convert_scalar T s).1 = 0 ∨ (convert_scalar T s).1 = -131) ∧
    ((convert_scalar T s).1 = 0 ↔
      ∃ w num rest n, s = w ++ num ++ rest ∧
        (∀ c ∈ w, isspaceChar c = true) ∧ NumLit num n ∧
        (rest = [] ∨ isspaceChar (rest.headD ' ') = true) ∧
        specInRange T n) := by
  constructor
  · unfold convert_scalar
    exact convFinish_fst_cases T (convStep T s)
  constructor
  · intro h0
    unfold convert_scalar at h0
    obtain ⟨hcons, hro, herr, hinr⟩ := (convFinish_eq_zero_iff T _).mp h0
    by_cases hsig : T.signed = true
    · have hstep : convStep T s = strtoll s := by
        unfold convStep
        rw [if_pos hsig]
      rw [hstep] at hcons hro herr hinr
      have hds : dsOf s ≠ [] := strtoll_consumed_imp hcons
      rw [strtoll_eq_of_ds hds] at hro herr hinr
      rw [strtollClamp_rest] at hro
      obtain ⟨hr1, hr2, hval⟩ := strtollClamp_erange_false herr
      rw [hval, hsig] at hinr
      obtain ⟨hin1, hin2⟩ := (is_in_range_signed _ _ _).mp hinr
      obtain ⟨sgn, hsgn, hseq, hneg⟩ := decomp_of_ds hds
      refine ⟨s.takeWhile isspaceChar, sgn ++ dsOf s, restOf s, rawOf s, hseq,
        fun c hc => List.mem_takeWhile_imp hc,
        ⟨sgn, dsOf s, rfl, hsgn, hds, dsOf_all_digits s, ?_⟩, hro, ?_⟩
      · unfold rawOf
        rw [hneg]
        by_cases hm : sgn = ['-'] <;> simp [hm]
      · unfold specInRange
        rw [if_pos hsig]
        exact ⟨hin1, hin2⟩
    · have hsig' : T.signed = false := by
        revert hsig
        cases T.signed <;> simp
      have hstep : convStep T s = strtoull s := by
        unfold convStep
        rw [if_neg hsig]
      rw [hstep] at hcons hro herr hinr
      have hds : dsOf s ≠ [] := strtoull_consumed_imp hcons
      rw [strtoull_eq_of_ds hds] at hro herr hinr
      rw [strtoullWrap_rest] at hro
      obtain ⟨hr1, hr2, hval⟩ := strtoullWrap_erange_false herr
      rw [hval, hsig'] at hinr
      have hin := (is_in_range_unsigned _ _ _).mp hinr
      obtain ⟨sgn, hsgn, hseq, hneg⟩ := decomp_of_ds hds
      refine ⟨s.takeWhile isspaceChar, sgn ++ dsOf s, restOf s, rawOf s, hseq,
        fun c hc => List.mem_takeWhile_imp hc,
        ⟨sgn, dsOf s, rfl, hsgn, hds, dsOf_all_digits s, ?_⟩, hro, ?_⟩
      · unfold rawOf
        rw [hneg]
        by_cases hm : sgn = ['-'] <;> simp [hm]
      · unfold specInRange
        rw [if_neg (by simp [hsig'])]
        unfold u64max at hr1 hr2
        have hp : (2 : Int) ^ 64 = 18446744073709551616 := by norm_num
        rw [hp] at hr1 hr2 ⊢
        exact ⟨by omega, by omega, hp ▸ hin⟩
  · rintro ⟨w, num, rest, n, hseq, hw, ⟨sgn, ds, hnum, hsgn, hds, hdig, hn⟩,
      hro, hrange⟩
    subst hnum
    subst hseq
    obtain ⟨hds', hrest', hneg'⟩ := parse_of_decomp hw hsgn hds hdig hro
    have hraw : rawOf (w ++ (sgn ++ ds) ++ rest) = n := by
      unfold rawOf
      rw [hneg', hds']
      by_cases hm : sgn = ['-'] <;> simp [hm, hn]
    have hdsne : dsOf (w ++ (sgn ++ ds) ++ rest) ≠ [] := by
      rw [hds']
      exact hds
    unfold convert_scalar
    by_cases hsig : T.signed = true
    · have hstep : convStep T (w ++ (sgn ++ ds) ++ rest)
          = strtoll (w ++ (sgn ++ ds) ++ rest) := by
        unfold convStep
        rw [if_pos hsig]
      rw [hstep, strtoll_eq_of_ds hdsne, hrest', hraw]
      unfold specInRange at hrange
      rw [if_pos hsig] at hrange
      obtain ⟨hn1, hn2⟩ := hrange
      obtain ⟨hbl, hbu⟩ := signed_bounds T hb1 hb2 hsig
      rw [strtollClamp_of_inrange (le_trans hbl hn1) (le_trans hn2 hbu)]
      refine (convFinish_eq_zero_iff T _).mpr ⟨rfl, hro, rfl, ?_⟩
      show is_in_range T.tmin T.tmax T.signed T.signed n = true
      rw [hsig]
      exact (is_in_range_signed _ _ _).mpr ⟨hn1, hn2⟩
    · have hsig' : T.signed = false := by
        revert hsig
        cases T.signed <;> simp
      have hstep : convStep T (w ++ (sgn ++ ds) ++ rest)
          = strtoull (w ++ (sgn ++ ds) ++ rest) := by
        unfold convStep
        rw [if_neg hsig]
      rw [hstep, strtoull_eq_of_ds hdsne, hrest', hraw]
      unfold specInRange at hrange
      rw [if_neg (by simp [hsig'])] at hrange
      obtain ⟨hn1, hn2, hn3⟩ := hrange
      have hp : (2 : Int) ^ 64 = 18446744073709551616 := by norm_num
      have hu : u64max = 18446744073709551615 := by
        unfold u64max
        rw [hp]
        rfl
      rw [strtoullWrap_of_inrange (by rw [hu]; rw [hp] at hn1; omega)
        (by rw [hu]; rw [hp] at hn2; omega)]
      refine (convFinish_eq_zero_iff T _).mpr ⟨rfl, hro, rfl, ?_⟩
      show is_in_range T.tmin T.tmax T.signed T.signed (Int.emod n (2 ^ 64)) = true
      rw [hsig']
      exact (is_in_range_unsigned _ _ _).mpr hn3

/-- Witness for the amended C2: `"42"` converts to 42 for `Int_t`. -/
theorem c2_scalar_conversion_amended_witness :
    (convert_scalar ⟨32, true⟩ ['4', '2']).1 = 0 := by
  have h := c2_scalar_conversion_amended ⟨32, true⟩ ['4', '2']
    (by decide) (by decide)
  exact h.2.mpr ⟨[], ['4', '2'], [], 42, by decide, by decide,
    ⟨[], ['4', '2'], rfl, Or.inl rfl, by decide, by decide, by decide⟩,
    Or.inl rfl, by decide⟩

/-- C3 (counterexample): for the widest unsigned target `ULong64_t`,
converting the negative source `"-1"` does not fail with -131: `strtoull`
wraps it to 2^64 - 1, which is within range. -/
theorem c3_counterexample :
    convert_scalar ⟨64, false⟩ ['-', '1'] = (0, some (2 ^ 64 - 1)) := by
  decide

/-- C3 (amended): for an unsigned target, a negative decimal source is
reduced modulo 2^64 by `strtoull`; the conversion succeeds with the
wrapped value when the magnitude fits `unsigned long long` and the wrapped
value is at most `max(T)`, and fails with -131 otherwise.  In particular
for a `uint8` target, `"-1"` and `"256"` give -131 while `"255"` gives
255. -/
theorem c3_unsigned_wraparound (T : IntType) (hsig : T.signed = false)
    (ds : Str) (hds : ds ≠ []) (hdig : ∀ c ∈ ds, isdigitChar c = true) :
    (convert_scalar T ('-' :: ds) =
      if (digitsVal ds : Int) ≤ u64max ∧
          Int.emod (-(digitsVal ds : Int)) (2 ^ 64) ≤ T.tmax
      then ((0 : Int), some (Int.emod (-(digitsVal ds : Int)) (2 ^ 64)))
      else ((-131 : Int), none)) ∧
    convert_scalar ⟨8, false⟩ ['-', '1'] = (-131, none) ∧
    convert_scalar ⟨8, false⟩ ['2', '5', '6'] = (-131, none) ∧
    convert_scalar ⟨8, false⟩ ['2', '5', '5'] = (0, some 255) := by
  refine ⟨?_, by decide, by decide, by decide⟩
  obtain ⟨hds', hrest', hneg'⟩ := @parse_of_decomp [] ['-'] ds []
    (by simp) (Or.inr (Or.inr rfl)) hds hdig (Or.inl rfl)
  rw [show ('-' :: ds : Str) = [] ++ (['-'] ++ ds) ++ [] by simp]
  unfold convert_scalar convStep
  rw [if_neg (by simp [hsig])]
  rw [strtoull_eq_of_ds (by rw [hds']; exact hds), hrest']
  have hraw : rawOf ([] ++ (['-'] ++ ds) ++ []) = -(digitsVal ds : Int) := by
    unfold rawOf
    rw [hneg', hds']
    simp
  rw [hraw]
  by_cases h1 : (digitsVal ds : Int) ≤ u64max
  · rw [strtoullWrap_of_inrange (neg_le_neg h1)
      (le_trans (neg_nonpos.mpr (Int.natCast_nonneg _)) (by decide))]
    by_cases h2 : Int.emod (-(digitsVal ds : Int)) (2 ^ 64) ≤ T.tmax
    · rw [if_pos ⟨h1, h2⟩]
      have hir : is_in_range T.tmin T.tmax T.signed T.signed
          (Int.emod (-(digitsVal ds : Int)) (2 ^ 64)) = true := by
        rw [hsig]
        exact (is_in_range_unsigned _ _ _).mpr h2
      unfold convFinish
      rw [if_neg (by simp), if_neg (by simp), if_neg (by simp),
        if_neg (by rw [hir]; decide)]
    · rw [if_neg (by rintro ⟨-, hc⟩; exact h2 hc)]
      have hir : is_in_range T.tmin T.tmax T.signed T.signed
          (Int.emod (-(digitsVal ds : Int)) (2 ^ 64)) = false := by
        rw [hsig]
        exact is_in_range_unsigned_false _ _ _ h2
      unfold convFinish
      rw [if_neg (by simp), if_neg (by simp), if_neg (by simp),
        if_pos (by rw [hir])]
  · rw [if_neg (by rintro ⟨hc, -⟩; exact h1 hc)]
    have hw : strtoullWrap [] (-(digitsVal ds : Int))
        = ⟨u64max, true, true, []⟩ := by
      unfold strtoullWrap
      rw [if_pos (Or.inl (neg_lt_neg (not_le.mp h1)))]
    rw [hw]
    unfold convFinish
    rw [if_neg (by simp), if_neg (by simp), if_pos rfl]

/-- Witness for the amended C3 at a concrete unsigned target and source:
`"-7"` wraps to 2^64 - 7, which exceeds a uint8 range, so -131. -/
theorem c3_unsigned_wraparound_witness :
    convert_scalar ⟨8, false⟩ ['-', '7'] = (-131, none) := by
  have h := (c3_unsigned_wraparound ⟨8, false⟩ rfl ['7'] (by decide)
    (by decide)).1
  rw [h]
  decide

/-- C4 (code bug): `IsDBkey` documents a byte-for-byte key comparison
("whether the key equals 'key'"), but `strncmp(ln, key, p - ln + 1)`
compares only the length of the left-hand side, so a line whose trimmed
left-hand side is a strict prefix of the requested key reports a match:
`"x = 5"` matches key `"xy"` with value text `"5"`.  The other documented
cases hold: no `=` gives 0, a non-prefix left side gives -1, an exact
match gives +1 with the leading-whitespace-stripped right side. -/
theorem c4_key_matcher_prefix_bug :
    IsDBkey ['x', ' ', '=', ' ', '5'] ['x', 'y'] = (1, some ['5']) ∧
    (['x'] : Str) ≠ ['x', 'y'] ∧
    IsDBkey ['x', 'y', ' ', '=', ' ', '3'] ['x', 'y'] = (1, some ['3']) ∧
    IsDBkey ['x', 'y', ' ', '=', ' ', '3'] ['x'] = (-1, none) ∧
    IsDBkey ['a', 'b'] ['x'] = (0, none) := by
  refine ⟨by decide, by decide, by decide, by decide, by decide⟩

/-- C9: matrix conversion first converts the value as a whitespace
separated array; when that succeeds with `vs` and `ncols` is positive, it
fails with -129 unless `ncols` divides the element count and otherwise
reshapes row-major into `nrows × ncols` rows; in particular `ncols = 3`
with `"1 2 3 4 5 6"` yields `[[1,2,3],[4,5,6]]` and `"1 2 3 4 5"` yields
-129. -/
theorem c9_matrix_conversion (T : IntType) (file : List Str) (date : Int)
    (key : Str) (ncols : Nat) (vs : List Int) (hn : 0 < ncols)
    (harr : LoadDBarrayInt T file date key = (0, some vs)) :
    (LoadDBmatrixInt T file date key ncols =
      if vs.length % ncols = 0 then some (0, some (matReshape vs ncols))
      else some (-129, none)) ∧
    (matReshape vs ncols).length = vs.length / ncols ∧
    (∀ row ∈ matReshape vs ncols, row.length = ncols) ∧
    (∀ r c, r < vs.length / ncols → c < ncols →
      ((matReshape vs ncols).getD r []).getD c 0 = vs.getD (c + r * ncols) 0) ∧
    LoadDBmatrixInt ⟨32, true⟩ ["m = 1 2 3 4 5 6".toList] 0 ['m'] 3
      = some (0, some [[1, 2, 3], [4, 5, 6]]) ∧
    LoadDBmatrixInt ⟨32, true⟩ ["m = 1 2 3 4 5".toList] 0 ['m'] 3
      = some (-129, none) := by
  refine ⟨?_, ?_, ?_, ?_, by decide, by decide⟩
  · unfold LoadDBmatrixInt
    rw [harr]
    rw [if_neg (by simp), if_neg (by omega)]
    by_cases hmod : vs.length % ncols = 0
    · rw [if_neg (by simp [hmod]), if_pos hmod]
      rfl
    · rw [if_pos (by simp [hmod]), if_neg hmod]
  · unfold matReshape
    simp
  · intro row hrow
    unfold matReshape at hrow
    simp only [List.mem_map, List.mem_range] at hrow
    obtain ⟨i, -, rfl⟩ := hrow
    simp
  · intro r c hr hc
    unfold matReshape
    simp [List.getD_eq_getElem?_getD, List.getElem?_map, List.getElem?_range,
      hr, hc]

/-- Witness for C9 at a concrete file: the six-element value with three
columns reshapes into two rows. -/
theorem c9_matrix_conversion_witness :
    LoadDBmatrixInt ⟨32, true⟩ ["m = 1 2 3 4 5 6".toList] 0 ['m'] 3
      = if ([1, 2, 3, 4, 5, 6] : List Int).length % 3 = 0
        then some (0, some (matReshape [1, 2, 3, 4, 5, 6] 3))
        else some (-129, none) := by
  exact (c9_matrix_conversion ⟨32, true⟩ ["m = 1 2 3 4 5 6".toList] 0 ['m'] 3
    [1, 2, 3, 4, 5, 6] (by decide) (by decide)).1

/-- C10: the divisibility check of `LoadDBmatrix` takes the element count
modulo `ncols` with no guard, so whenever the array conversion succeeds
and `ncols = 0` the modulo-by-zero (undefined behavior, the model's
`none`) is reached — also through `load_and_assign_matrix`, which passes
the request's `nelem` through unchecked; with `ncols ≥ 1` every outcome is
defined, and when the array conversion fails `ncols` is never consulted. -/
theorem c10_matrix_ncols_zero_ub (T : IntType) (file : List Str) (date : Int)
    (key : Str) :
    ((LoadDBarrayInt T file date key).1 = 0 →
      LoadDBmatrixInt T file date key 0 = none ∧
      load_and_assign_matrix T file date key 0 = none) ∧
    (∀ ncols, 0 < ncols → LoadDBmatrixInt T file date key ncols ≠ none) ∧
    ((LoadDBarrayInt T file date key).1 ≠ 0 →
      LoadDBmatrixInt T file date key 0
        = some ((LoadDBarrayInt T file date key).1, none)) := by
  refine ⟨?_, ?_, ?_⟩
  · intro h
    have h1 : LoadDBmatrixInt T file date key 0 = none := by
      unfold LoadDBmatrixInt
      rw [if_neg (by simp [h]), if_pos rfl]
    refine ⟨h1, ?_⟩
    unfold load_and_assign_matrix
    rw [h1]
  · intro ncols hc
    unfold LoadDBmatrixInt
    by_cases ha : (LoadDBarrayInt T file date key).1 ≠ 0
    · rw [if_pos ha]
      simp
    · rw [if_neg ha, if_neg (by omega)]
      split_ifs <;> simp
  · intro h
    unfold LoadDBmatrixInt
    rw [if_pos h]

/-- Witness for C10: a successfully converted three-element array with
`ncols = 0` reaches the undefined modulo. -/
theorem c10_matrix_ncols_zero_ub_witness :
    LoadDBmatrixInt ⟨32, true⟩ ["m = 1 2 3".toList] 0 ['m'] 0 = none ∧
    load_and_assign_matrix ⟨32, true⟩ ["m = 1 2 3".toList] 0 ['m'] 0
      = none := by
  exact (c10_matrix_ncols_zero_ub ⟨32, true⟩ ["m = 1 2 3".toList] 0
    ['m']).1 (by decide)

lemma tabToSpace_eq_self {l : Str} (h : '\t' ∉ l) : tabToSpace l = l := by
  unfold tabToSpace
  induction l with
  | nil => rfl
  | cons c t ih =>
    rw [List.map_cons, if_neg (by rintro rfl; exact h (by simp)), ih]
    intro hc
    exact h (by simp [hc])

/-- `prepare_line` passes a clean physical line through unchanged, with
no flags raised. -/
lemma prepare_clean {l : Str} (h : cleanLine l) :
    prepare_line (tabToSpace l) = ⟨l, false, false, false, false⟩ := by
  obtain ⟨h1, h2, h3, h4, h5, h6⟩ := h
  rw [tabToSpace_eq_self h4]
  have hH : l.findIdx? (· = '#') = none := by
    rw [List.findIdx?_eq_none_iff]
    intro x hx
    rw [decide_eq_false_iff_not]
    rintro rfl
    exact h2 hx
  have hB : l.findIdx? (· = '\\') = none := by
    rw [List.findIdx?_eq_none_iff]
    intro x hx
    rw [decide_eq_false_iff_not]
    rintro rfl
    exact h3 hx
  unfold prepare_line
  rw [if_neg h1]
  dsimp only
  rw [hH, hB]
  rw [if_neg (by simp)]
  rw [if_neg h1]
  rw [h5, h6]
  rfl

/-- A pending assignment continuation is canceled by a clean assignment
line: the reader keeps the pending logical line and consumes nothing, so
the assignment line is re-read on the next call. -/
lemma ReadDBlineAux_cancel (b : Str) (rest : List Str) (line : Str)
    (hb : cleanLine b) (hasgn : IsAssignment b = true) (hline : line ≠ []) :
    ReadDBlineAux (b :: rest) line true = ⟨false, line, 0, true⟩ := by
  have hb1 : b ≠ [] := hb.1
  rw [ReadDBlineAux]
  simp [prepare_clean hb, hline, hasgn, hb1]

/-- A clean assignment as the first physical line starts a tentative
continuation: a space is appended and the scan continues. -/
lemma ReadDBlineAux_first_asgn (a : Str) (rest : List Str)
    (ha : cleanLine a) (hasgn : IsAssignment a = true) :
    ReadDBlineAux (a :: rest) [] false =
      ⟨(ReadDBlineAux rest (a ++ [' ']) true).eof,
       (ReadDBlineAux rest (a ++ [' ']) true).line,
       (ReadDBlineAux rest (a ++ [' ']) true).used + 1,
       (ReadDBlineAux rest (a ++ [' ']) true).mc⟩ := by
  have ha1 : a ≠ [] := ha.1
  rw [ReadDBlineAux]
  simp [prepare_clean ha, hasgn, ha1]

/-- C7: when an implicit (assignment) continuation is pending, a new
assignment line cancels it — the reader returns the pending logical line
and consumes nothing, so the new assignment is re-read on the next call
(first and second conjuncts); when implicit continuation runs to EOF, the
tentative trailing space is removed and EOF is deferred to the next call
(third conjunct: the single-assignment file yields the line without EOF
and only the following call reports EOF); and the file
`"y = 10 20" / "30 40" / "z = 5"` yields `y = "10 20 30 40"` with the
position rewound to the `z =` line, then `z = "5"`, then EOF. -/
theorem c7_reader_rewind_and_eof_deferral :
    (∀ (b : Str) (rest : List Str) (line : Str), cleanLine b →
        IsAssignment b = true → line ≠ [] →
        ReadDBlineAux (b :: rest) line true = ⟨false, line, 0, true⟩) ∧
    (∀ (a b : Str) (rest : List Str), cleanLine a → IsAssignment a = true →
        cleanLine b → IsAssignment b = true →
        ReadDBline (a :: b :: rest) 0 = (false, a, 1)) ∧
    (∀ (a : Str), cleanLine a → IsAssignment a = true →
        ReadDBline [a] 0 = (false, a, 1) ∧ ReadDBline [a] 1 = (true, [], 1)) ∧
    ReadDBline ["y = 10 20".toList, "30 40".toList, "z = 5".toList] 0
      = (false, "y = 10 20 30 40".toList, 2) ∧
    ReadDBline ["y = 10 20".toList, "30 40".toList, "z = 5".toList] 2
      = (false, "z = 5".toList, 3) ∧
    ReadDBline ["y = 10 20".toList, "30 40".toList, "z = 5".toList] 3
      = (true, [], 3) := by
  refine ⟨ReadDBlineAux_cancel, ?_, ?_, by decide, by decide, by decide⟩
  · intro a b rest ha hasgna hb hasgnb
    unfold ReadDBline
    rw [List.drop_zero, ReadDBlineAux_first_asgn a (b :: rest) ha hasgna,
      ReadDBlineAux_cancel b rest (a ++ [' ']) hb hasgnb (by simp)]
    simp [isspaceChar, List.getLastD_concat, List.dropLast_concat]
  · intro a ha hasgn
    constructor
    · unfold ReadDBline
      rw [List.drop_zero, ReadDBlineAux_first_asgn a [] ha hasgn]
      rw [show ReadDBlineAux [] (a ++ [' ']) true
          = ⟨true, a ++ [' '], 0, true⟩ from rfl]
      simp [isspaceChar, List.getLastD_concat, List.dropLast_concat]
    · rfl

/-- Witness for C7 at concrete lines: the reader returns the first
assignment and leaves the position on the second. -/
theorem c7_reader_rewind_and_eof_deferral_witness :
    ReadDBline ["w = 1".toList, "v = 2".toList] 0
      = (false, "w = 1".toList, 1) := by
  exact c7_reader_rewind_and_eof_deferral.2.1 "w = 1".toList "v = 2".toList
    [] (by decide) (by decide) (by decide) (by decide)

/-- Witness for C1 at a concrete file and date: for a 2005 request the
assignment under the 2000 stamp governs. -/
theorem c1_load_value_resolution_witness :
    LoadDBvalue c1File (encodeDT 2005 1 1 0 0 0) ['x'] = (0, some ['1']) := by
  have h := c1_load_value_resolution c1File (encodeDT 2005 1 1 0 0 0) ['x']
    (by decide) (by decide)
  rw [h]
  decide

/-! ### C5, C6 and C8: hierarchical search, missing items, file paths -/

lemma chopPrefix_length_lt {p : Str} (h : p ≠ []) :
    (ChopPrefixStr p).1.length < p.length := by
  have hlen : 0 < p.length := List.length_pos.mpr h
  unfold ChopPrefixStr
  by_cases h2 : 2 ≤ p.length
  · rw [if_pos h2]
    dsimp only
    rcases hf : (p.take (p.length - 1)).reverse.findIdx? (· = '.') with _ | ridx
    · simpa using hlen
    · have hr : ridx < (p.take (p.length - 1)).reverse.length :=
        List.findIdx?_eq_some_iff_findIdx_eq.mp hf |>.1
      rw [List.length_reverse, List.length_take] at hr
      simp only [List.length_take]
      omega
  · rw [if_neg h2]
    simpa using hlen

lemma searchChain_ne_nil (fuel : Nat) (p : Str) (s : Int) :
    searchChain fuel p s ≠ [] := by
  cases fuel <;> simp [searchChain]

lemma mem_searchChain_self (fuel : Nat) (p : Str) (s : Int) :
    p ∈ searchChain fuel p s := by
  cases fuel <;> simp [searchChain]

lemma itemStatus_search_irrel (file : List Str) (date : Int)
    (item : DBRequest) (z : Int) (p : Str) :
    itemStatus file date { item with search := z } p
      = itemStatus file date item p := rfl

lemma loadItemCore_chain (file : List Str) (date : Int) :
    ∀ (fuel : Nat) (item : DBRequest) (pfx : Str) (search : Int) (idx : Nat),
    item.optional = false →
    pfx.length < fuel →
    (∀ p ∈ searchChain fuel pfx
        (if item.search ≠ 0 then item.search else search),
      itemStatus file date item p = some 0 ∨
      itemStatus file date item p = some 1) →
    ((∃ p ∈ searchChain fuel pfx
        (if item.search ≠ 0 then item.search else search),
        itemStatus file date item p = some 0) →
      ∃ v, loadItemCore file date fuel item idx pfx search = some (0, v)) ∧
    ((∀ p ∈ searchChain fuel pfx
        (if item.search ≠ 0 then item.search else search),
        itemStatus file date item p = some 1) →
      loadItemCore file date fuel item idx pfx search =
        some ((if 1 < (searchChain fuel pfx
            (if item.search ≠ 0 then item.search else search)).length
          then (1 : Int) else 1 + (idx : Int)), none)) := by
  intro fuel
  induction fuel with
  | zero =>
    intro item pfx search idx hopt hfuel hall
    omega
  | succ n ih =>
    intro item pfx search idx hopt hfuel hall
    have hmem : pfx ∈ searchChain (n + 1) pfx
        (if item.search ≠ 0 then item.search else search) :=
      mem_searchChain_self _ _ _
    rcases hdis : dispatchItem file date item (pfx ++ item.name)
      with _ | ⟨st, v, n'⟩
    · rcases hall pfx hmem with h | h <;>
        · unfold itemStatus at h
          rw [hdis] at h
          simp at h
    · have hst : itemStatus file date item pfx = some st := by
        unfold itemStatus
        rw [hdis]
        rfl
      rcases hall pfx hmem with h0 | h1
      · have hst0 : st = 0 := by
          rw [hst] at h0
          exact Option.some_injective _ h0
        subst hst0
        rw [loadItemCore, hdis]
        dsimp only
        constructor
        · intro _
          exact ⟨v, rfl⟩
        · intro hall1
          have hx := hall1 pfx hmem
          rw [hst] at hx
          simp at hx
      · have hst1 : st = 1 := by
          rw [hst] at h1
          exact Option.some_injective _ h1
        subst hst1
        rw [loadItemCore, hdis]
        dsimp only
        by_cases hc1 : (if item.search ≠ 0 then item.search else search) ≠ 0 ∧
            pfx ≠ []
        · by_cases hc2 : (if item.search ≠ 0 then item.search else search) < 0 ∨
              (ChopPrefixStr pfx).2 + 1
                ≥ (if item.search ≠ 0 then item.search else search)
          · rw [if_pos hc1, if_pos hc2]
            have hchain : searchChain (n + 1) pfx
                (if item.search ≠ 0 then item.search else search)
                = pfx :: searchChain n (ChopPrefixStr pfx).1
                    (if (if item.search ≠ 0 then item.search else search) < 0
                     then (if item.search ≠ 0 then item.search else search) + 1
                     else (if item.search ≠ 0 then item.search else search)) := by
              rw [searchChain, if_pos hc1, if_pos hc2]
            have hifuel : (ChopPrefixStr pfx).1.length < n := by
              have := chopPrefix_length_lt hc1.2
              omega
            have heff : (if ({ item with search := 0 } : DBRequest).search ≠ 0
                then ({ item with search := 0 } : DBRequest).search
                else (if (if item.search ≠ 0 then item.search else search) < 0
                      then (if item.search ≠ 0 then item.search else search) + 1
                      else (if item.search ≠ 0 then item.search else search)))
                = (if (if item.search ≠ 0 then item.search else search) < 0
                   then (if item.search ≠ 0 then item.search else search) + 1
                   else (if item.search ≠ 0 then item.search else search)) := by
              simp
            have hallin : ∀ p ∈ searchChain n (ChopPrefixStr pfx).1
                (if ({ item with search := 0 } : DBRequest).search ≠ 0
                 then ({ item with search := 0 } : DBRequest).search
                 else (if (if item.search ≠ 0 then item.search else search) < 0
                       then (if item.search ≠ 0 then item.search else search) + 1
                       else (if item.search ≠ 0 then item.search else search))),
                itemStatus file date { item with search := 0 } p = some 0 ∨
                itemStatus file date { item with search := 0 } p = some 1 := by
              rw [heff]
              intro p hp
              rw [itemStatus_search_irrel]
              exact hall p (by rw [hchain]; exact List.mem_cons_of_mem _ hp)
            have IH := ih { item with search := 0 } (ChopPrefixStr pfx).1
              (if (if item.search ≠ 0 then item.search else search) < 0
               then (if item.search ≠ 0 then item.search else search) + 1
               else (if item.search ≠ 0 then item.search else search)) 0
              hopt hifuel hallin
            rw [heff] at IH
            constructor
            · rintro ⟨p, hp, hp0⟩
              rw [hchain] at hp
              rcases List.mem_cons.mp hp with rfl | hp'
              · rw [hst] at hp0
                simp at hp0
              · refine IH.1 ⟨p, hp', ?_⟩
                rw [itemStatus_search_irrel]
                exact hp0
            · intro hall1
              have hinner := IH.2 (by
                intro p hp
                rw [itemStatus_search_irrel]
                exact hall1 p (by rw [hchain]; exact List.mem_cons_of_mem _ hp))
              rw [hinner]
              have hlen1 : searchChain n (ChopPrefixStr pfx).1
                  (if (if item.search ≠ 0 then item.search else search) < 0
                   then (if item.search ≠ 0 then item.search else search) + 1
                   else (if item.search ≠ 0 then item.search else search))
                  ≠ [] := searchChain_ne_nil _ _ _
              have hlen : 1 < (searchChain (n + 1) pfx
                  (if item.search ≠ 0 then item.search else search)).length := by
                rw [hchain]
                have := List.length_pos.mpr hlen1
                simp only [List.length_cons]
                omega
              rw [if_pos hlen]
              rw [if_neg (show ¬(1 : Int) = 0 by decide),
                if_pos (show (0 : Int) < 1 by decide)]
              split_ifs <;> simp
          · rw [if_pos hc1, if_neg hc2,
                if_neg (show ¬item.optional = true by simp [hopt])]
            have hchain : searchChain (n + 1) pfx
                (if item.search ≠ 0 then item.search else search) = [pfx] := by
              rw [searchChain, if_pos hc1, if_neg hc2]
            constructor
            · rintro ⟨p, hp, hp0⟩
              rw [hchain] at hp
              rcases List.mem_singleton.mp hp with rfl
              rw [hst] at hp0
              simp at hp0
            · intro _
              rw [hchain]
              simp
        · rw [if_neg hc1, if_neg (show ¬item.optional = true by simp [hopt])]
          have hchain : searchChain (n + 1) pfx
              (if item.search ≠ 0 then item.search else search) = [pfx] := by
            rw [searchChain, if_neg hc1]
          constructor
          · rintro ⟨p, hp, hp0⟩
            rw [hchain] at hp
            rcases List.mem_singleton.mp hp with rfl
            rw [hst] at hp0
            simp at hp0
          · intro _
            rw [hchain]
            simp

lemma loadItemCore_opt (file : List Str) (date : Int) :
    ∀ (fuel : Nat) (item : DBRequest) (pfx : Str) (search : Int) (idx : Nat),
    item.optional = true →
    pfx.length < fuel →
    (∀ p ∈ searchChain fuel pfx
        (if item.search ≠ 0 then item.search else search),
      itemStatus file date item p = some 1) →
    loadItemCore file date fuel item idx pfx search = some (0, none) := by
  intro fuel
  induction fuel with
  | zero =>
    intro item pfx search idx hopt hfuel hall
    omega
  | succ n ih =>
    intro item pfx search idx hopt hfuel hall
    have hmem : pfx ∈ searchChain (n + 1) pfx
        (if item.search ≠ 0 then item.search else search) :=
      mem_searchChain_self _ _ _
    rcases hdis : dispatchItem file date item (pfx ++ item.name)
      with _ | ⟨st, v, n'⟩
    · have h := hall pfx hmem
      unfold itemStatus at h
      rw [hdis] at h
      simp at h
    · have hst : itemStatus file date item pfx = some st := by
        unfold itemStatus
        rw [hdis]
        rfl
      have hst1 : st = 1 := by
        have h := hall pfx hmem
        rw [hst] at h
        exact Option.some_injective _ h
      subst hst1
      rw [loadItemCore, hdis]
      dsimp only
      by_cases hc1 : (if item.search ≠ 0 then item.search else search) ≠ 0 ∧
          pfx ≠ []
      · by_cases hc2 : (if item.search ≠ 0 then item.search else search) < 0 ∨
            (ChopPrefixStr pfx).2 + 1
              ≥ (if item.search ≠ 0 then item.search else search)
        · rw [if_pos hc1, if_pos hc2]
          have hchain : searchChain (n + 1) pfx
              (if item.search ≠ 0 then item.search else search)
              = pfx :: searchChain n (ChopPrefixStr pfx).1
                  (if (if item.search ≠ 0 then item.search else search) < 0
                   then (if item.search ≠ 0 then item.search else search) + 1
                   else (if item.search ≠ 0 then item.search else search)) := by
            rw [searchChain, if_pos hc1, if_pos hc2]
          have hifuel : (ChopPrefixStr pfx).1.length < n := by
            have := chopPrefix_length_lt hc1.2
            omega
          refine ih { item with search := 0 } (ChopPrefixStr pfx).1 _ 0
            hopt hifuel ?_
          intro p hp
          rw [itemStatus_search_irrel]
          refine hall p ?_
          rw [hchain]
          refine List.mem_cons_of_mem _ ?_
          simpa using hp
        · rw [if_pos hc1, if_neg hc2,
            if_pos (show item.optional = true from hopt)]
          simp
      · rw [if_neg hc1, if_pos (show item.optional = true from hopt)]
        simp

/-- C5: hierarchical fallback.  When a non-optional item resolves to
found-or-missing at every prefix of the search chain (the item's own key
first, then one dotted component removed at a time while the effective
search applies: a negative search is incremented toward 0 so `-k` allows
at most `k` ascensions, a positive `N` continues only while the new level
is at least `N`), the loader succeeds iff some chain prefix finds the key;
and concretely, with prefix `"L.vdc.u1."`, key `nw` and the file
`L.nw = 7`, a global search of 1 finds 7 while a search of -1 fails,
because one ascension only reaches `"L.vdc."`. -/
theorem c5_hierarchical_search (file : List Str) (date : Int)
    (item : DBRequest) (pfx : Str) (search : Int) (idx : Nat)
    (hopt : item.optional = false)
    (hall : ∀ p ∈ searchChain (pfx.length + 1) pfx
        (if item.search ≠ 0 then item.search else search),
      itemStatus file date item p = some 0 ∨
      itemStatus file date item p = some 1) :
    ((∃ p ∈ searchChain (pfx.length + 1) pfx
        (if item.search ≠ 0 then item.search else search),
        itemStatus file date item p = some 0) →
      ∃ v, loadItemCore file date (pfx.length + 1) item idx pfx search
        = some (0, v)) ∧
    ((∀ p ∈ searchChain (pfx.length + 1) pfx
        (if item.search ≠ 0 then item.search else search),
        itemStatus file date item p = some 1) →
      loadItemCore file date (pfx.length + 1) item idx pfx search =
        some ((if 1 < (searchChain (pfx.length + 1) pfx
            (if item.search ≠ 0 then item.search else search)).length
          then (1 : Int) else 1 + (idx : Int)), none)) ∧
    LoadDatabase nwFile 0 [nwItem] "L.vdc.u1.".toList 1
      = some (0, [(0, DBValue.ival 7)]) ∧
    LoadDatabase nwFile 0 [nwItem] "L.vdc.u1.".toList (-1)
      = some (1, []) := by
  have h := loadItemCore_chain file date (pfx.length + 1) item pfx search idx
    hopt (Nat.lt_succ_self _) hall
  exact ⟨h.1, h.2, by decide, by decide⟩

theorem c5_hierarchical_search_witness :
    nwItem.optional = false ∧
    (∀ p ∈ searchChain ("L.vdc.u1.".toList.length + 1) "L.vdc.u1.".toList
        (if nwItem.search ≠ 0 then nwItem.search else 1),
      itemStatus nwFile 0 nwItem p = some 0 ∨
      itemStatus nwFile 0 nwItem p = some 1) ∧
    ∃ v, loadItemCore nwFile 0 ("L.vdc.u1.".toList.length + 1) nwItem 0
      "L.vdc.u1.".toList 1 = some (0, v) :=
  ⟨rfl, by decide,
   (c5_hierarchical_search nwFile 0 nwItem "L.vdc.u1.".toList 1 0 rfl
     (by decide)).1 (by decide)⟩

/-- C6 counterexample: file `L.a = 1`, requests `a` (found) and `b`
(missing, index 1), prefix `"L."`, global search 1.  The fallback
recursion for `b` is taken (to the empty prefix) and fails there; the
inner single-item call returns its own `1 + 0 = 1`, which the outer loop
passes through unchanged.  The claim requires `1 + 1 = 2`. -/
theorem c6_counterexample :
    LoadDatabase abFile 0 [aItem, bItem] "L.".toList 1
      = some (1, [(0, DBValue.ival 1)]) ∧
    (1 : Int) ≠ 1 + (1 : Nat) := by
  exact ⟨by decide, by decide⟩

/-- C6 (amended): when a non-optional item's key is missing at every
prefix of its search chain, the loader stops with status `1 + idx` only
if no fallback step applied (chain of length 1); if the fallback
recursion was taken, the inner single-item call's status `1 = 1 + 0`
propagates instead.  A missing optional item yields status 0, writes
nothing, and the loop continues with the remaining items exactly as if
the item were absent. -/
theorem c6_missing_item_reporting (file : List Str) (date : Int)
    (item : DBRequest) (rest : List DBRequest) (idx : Nat) (pfx : Str)
    (search : Int) (hvar : item.var = true)
    (hall : ∀ p ∈ searchChain (pfx.length + 1) pfx
        (if item.search ≠ 0 then item.search else search),
      itemStatus file date item p = some 1) :
    (item.optional = false →
      loadDatabaseList file date (item :: rest) idx pfx search =
        some ((if 1 < (searchChain (pfx.length + 1) pfx
            (if item.search ≠ 0 then item.search else search)).length
          then (1 : Int) else 1 + (idx : Int)), [])) ∧
    (item.optional = true →
      loadDatabaseList file date (item :: rest) idx pfx search
        = loadDatabaseList file date rest (idx + 1) pfx search) := by
  constructor
  · intro hopt
    have h := (loadItemCore_chain file date (pfx.length + 1) item pfx search
      idx hopt (Nat.lt_succ_self _) (fun p hp => Or.inr (hall p hp))).2 hall
    rw [loadDatabaseList, if_neg (by simp [hvar]), h]
    dsimp only
    have hne : (if 1 < (searchChain (pfx.length + 1) pfx
        (if item.search ≠ 0 then item.search else search)).length
      then (1 : Int) else 1 + (idx : Int)) ≠ 0 := by
      split_ifs <;> omega
    rw [if_neg hne]
  · intro hopt
    have h := loadItemCore_opt file date (pfx.length + 1) item pfx search idx
      hopt (Nat.lt_succ_self _) hall
    rw [loadDatabaseList, if_neg (by simp [hvar]), h]
    dsimp only
    rw [if_pos rfl]
    cases loadDatabaseList file date rest (idx + 1) pfx search <;> rfl

theorem c6_missing_item_reporting_witness :
    bItem.var = true ∧
    bItem.optional = false ∧
    (∀ p ∈ searchChain ("L.".toList.length + 1) "L.".toList
        (if bItem.search ≠ 0 then bItem.search else 1),
      itemStatus abFile 0 bItem p = some 1) ∧
    loadDatabaseList abFile 0 [bItem] 1 "L.".toList 1 =
      some ((if 1 < (searchChain ("L.".toList.length + 1) "L.".toList
          (if bItem.search ≠ 0 then bItem.search else 1)).length
        then (1 : Int) else 1 + ((1 : Nat) : Int)), []) :=
  ⟨rfl, rfl, by decide,
   (c6_missing_item_reporting abFile 0 bItem [] 1 "L.".toList 1 rfl
     (by decide)).1 rfl⟩

/-- C8 counterexample: with no `DB_DIR`, only the current directory
openable and empty, the candidate list for `test` begins with the bare
`db_test.dat` — the code pushes `filename` itself, not `./filename` as
its own comment and the claim state; the `./`-prefixed form only appears
last, as the database-directory candidate `.` + `/` + `db_test.dat`. -/
theorem c8_counterexample :
    GetDBFileList c8fs "test".toList 20050101
      = ["db_test.dat".toList, "./db_test.dat".toList] ∧
    "db_test.dat".toList ≠ "./db_test.dat".toList := by
  exact ⟨by decide, by decide⟩

/-- C8 (amended): a name containing `/` is returned verbatim as the only
candidate; otherwise, when some search directory opens (`thedir` being
the first that does) and the normalized stem is long enough, the
candidate list begins with the bare normalized file name
`db_<name>.dat` (no `./` prefix) and ends with
`<thedir>/db_<name>.dat`. -/
theorem c8_path_candidates (fs : FSenv) (name : Str) (date : Nat)
    (hne : name ≠ []) :
    (name.any (· = '/') = true → GetDBFileList fs name date = [name]) ∧
    (∀ thedir, name.any (· = '/') = false →
      (dirSearchList fs).find? fs.openable = some thedir →
      4 ≤ (dbStem name).length →
      (GetDBFileList fs name date).head? = some (dbFileName name) ∧
      (GetDBFileList fs name date).getLast? =
        some (thedir ++ '/' :: dbFileName name)) := by
  constructor
  · intro hs
    rw [GetDBFileList, if_neg hne, if_pos hs]
  · intro thedir hs hfind h4
    rw [GetDBFileList, if_neg hne, if_neg (by simp [hs]), hfind]
    dsimp only
    rw [if_neg (by omega)]
    refine ⟨rfl, ?_⟩
    exact List.getLast?_concat _

theorem c8_path_candidates_witness :
    "test".toList ≠ ([] : Str) ∧
    ("test".toList.any (· = '/')) = false ∧
    (dirSearchList c8fs).find? c8fs.openable = some ".".toList ∧
    4 ≤ (dbStem "test".toList).length ∧
    ((GetDBFileList c8fs "test".toList 20050101).head?
        = some (dbFileName "test".toList) ∧
     (GetDBFileList c8fs "test".toList 20050101).getLast?
        = some (".".toList ++ '/' :: dbFileName "test".toList)) :=
  ⟨by decide, by decide, by decide, by decide,
   (c8_path_candidates c8fs "test".toList 20050101 (by decide)).2
     ".".toList (by decide) (by decide) (by decide)⟩

end Podd
